import Mathlib

/-!
Category-scoped attribute inheritance engine — a shallow embedding.

This file embeds the attribute-binding / inheritance / cascade subsystem of the
ERP backend (Go + GORM) and proves the specification claims about it.

Modelling conventions, reflecting GORM semantics as used by the source:

* A table is a `List` of rows kept in insertion order.  The primary key `id`
  doubles as the creation timestamp (`created_at` ties are broken the same way,
  since rows are created one at a time with an auto-incremented key).
* Soft deletion (`gorm.DeletedAt`) is a `deleted : Bool` field.  GORM-mediated
  queries (`Find`, `First`, `Count`, `Delete`, `Updates` on a model) implicitly
  filter `deleted_at IS NULL`; raw SQL (`db.Raw`) does *not*, and the embedding
  follows the source on each query.
* `uint` identifiers become `Nat`; Go `int` fields (`sort`, `level`) become `Int`.
* Attribute metadata (name, type, options, validation) plays no role in any
  claim, so the embedded `Attribute` row keeps only identity and liveness.
* Database errors on writes are modelled by a fault oracle
  `failWrite : Nat → Bool` saying whether the write touching a given descendant
  category fails (the spec calls these transient store errors).  A failure
  inside a `db.Transaction` rolls the whole transaction back, which the
  embedding represents by returning `.error` and having the caller keep the
  pre-transaction state.
-/

namespace Erp

/-- A row of `categories` (`internal/modules/category/model/category.go`);
only the fields the inheritance engine reads. -/
structure Category where
  id : Nat
  parentId : Option Nat
  level : Int
  deleted : Bool
deriving Repr, DecidableEq

/-- A row of `attributes` (`internal/modules/attribute/model/attribute.go`),
reduced to the fields the binding/inheritance code inspects. -/
structure Attribute where
  id : Nat
  deleted : Bool
deriving Repr, DecidableEq

/-- A row of `category_attributes`
(`internal/modules/attribute/model/attribute.go`, `CategoryAttribute`). -/
structure CategoryAttribute where
  id : Nat
  categoryId : Nat
  attributeId : Nat
  isRequired : Bool
  sort : Int
  deleted : Bool
deriving Repr, DecidableEq

/-- One entry of a `BatchBindAttributesToCategory` request
(`CategoryAttributeBindRequest`). -/
structure CategoryAttributeBindRequest where
  attributeId : Nat
  isRequired : Bool
  sort : Int
deriving Repr, DecidableEq

/-- The persistent state the subsystem touches. `nextId` is the
auto-increment counter for `category_attributes`. -/
structure DB where
  categories : List Category
  attributes : List Attribute
  bindings : List CategoryAttribute
  nextId : Nat
deriving Repr, DecidableEq

/-- The errors the service/repository layers distinguish (each constructor is a
distinct Go error message or wrapped error). -/
inductive RepoError where
  /-- Go error "属性不存在" — attribute does not exist (live). -/
  | attributeNotFound
  /-- Go error "属性已绑定到此分类" — a live binding already exists for the pair. -/
  | alreadyBound
  /-- Go error "分类属性关联不存在" — no live binding for the pair. -/
  | bindingNotFound
  /-- a cascade write at the given descendant category failed. -/
  | cascadeStep (categoryId : Nat)
  /-- Go error "第i个属性不存在" in a batch request (0-based index here). -/
  | batchAttributeNotFound (index : Nat)
  /-- Go error "第i个属性已绑定到此分类" in a batch request (0-based index here). -/
  | batchAlreadyBound (index : Nat)
deriving Repr, DecidableEq

instance {ε α : Type} [DecidableEq ε] [DecidableEq α] : DecidableEq (Except ε α) :=
  fun x y =>
  match x, y with
  | .ok a, .ok b =>
    if h : a = b then .isTrue (congrArg Except.ok h)
    else .isFalse (fun hx => h (by cases hx; rfl))
  | .ok _, .error _ => .isFalse (fun hx => Except.noConfusion hx)
  | .error _, .ok _ => .isFalse (fun hx => Except.noConfusion hx)
  | .error e1, .error e2 =>
    if h : e1 = e2 then .isTrue (congrArg Except.error h)
    else .isFalse (fun hx => h (by cases hx; rfl))

/-! ## Generic list helpers (stable insertion sort used to model `ORDER BY`) -/

/-- Insert `a` into `l` before the first element `b` with `le a b`. -/
def insertLe {α : Type} (le : α → α → Bool) (a : α) : List α → List α
  | [] => [a]
  | b :: bs => if le a b then a :: b :: bs else b :: insertLe le a bs

/-- Insertion sort by the boolean relation `le`; models a SQL `ORDER BY`
(the keys used below are total and injective, so the result is the unique
sorted arrangement). -/
def orderBy {α : Type} (le : α → α → Bool) : List α → List α
  | [] => []
  | a :: as => insertLe le a (orderBy le as)

/-! ## Row-level predicates -/

/-- All rows (live or soft-deleted) of `category_attributes` for a
`(category, attribute)` pair. -/
def pairRows (db : DB) (cid aid : Nat) : List CategoryAttribute :=
  db.bindings.filter (fun b => b.categoryId == cid && b.attributeId == aid)

/-- The live rows for a `(category, attribute)` pair. -/
def livePairRows (db : DB) (cid aid : Nat) : List CategoryAttribute :=
  db.bindings.filter (fun b => b.categoryId == cid && b.attributeId == aid && !b.deleted)

/-! ## Category tree reads -/

/-- GORM `First` on `categories` by id with the implicit soft-delete filter; also the
anchor of the recursive CTEs, which all require `deleted_at IS NULL`. -/
def findLiveCategory (db : DB) (cid : Nat) : Option Category :=
  db.categories.find? (fun c => c.id == cid && !c.deleted)

/-- The recursive-CTE walk from a category up its `parent_id` chain, keeping
only live categories, target first.  `fuel` bounds the recursion: the
inheritance CTEs are unbounded (fuel = table size suffices on acyclic data),
while `isAttributeInheritedFromParent`'s CTE stops at 10 levels. -/
def pathToRoot (db : DB) : Nat → Nat → List Category
  | 0, _ => []
  | Nat.succ fuel, cid =>
    match findLiveCategory db cid with
    | none => []
    | some c =>
      match c.parentId with
      | none => [c]
      | some p => c :: pathToRoot db fuel p

/-- The `category_path` CTE of `GetCategoryAttributesWithInheritance`:
the target and all its live ancestors. -/
def categoryPath (db : DB) (cid : Nat) : List Category :=
  pathToRoot db (db.categories.length + 1) cid

/-- Embeds `CheckAttributeExists`: a live `attributes` row with this id exists
(`repository.go` line 999). -/
def checkAttributeExists (db : DB) (aid : Nat) : Bool :=
  db.attributes.any (fun a => a.id == aid && !a.deleted)

/-- Modelled from the spec: `GetAllDescendants(categoryID) -> [CategoryID]` —
"full subtree excluding the root itself, any traversal order" (§4.1).  The
category repository in the sources only shows `GetDescendants` (a recursive CTE
over live categories); the id-returning wrapper the attribute repository calls
is not under `src/`, so the subtree walk is taken from the spec: generation by
generation over live children. -/
def descendantsAux (db : DB) : Nat → List Nat → List Nat
  | 0, _ => []
  | Nat.succ fuel, frontier =>
    match (db.categories.filter (fun c =>
        !c.deleted && (match c.parentId with
          | some p => frontier.contains p
          | none => false))).map (fun c => c.id) with
    | [] => []
    | next => next ++ descendantsAux db fuel next

/-- See `descendantsAux`; the fuel of one generation per stored category is
enough to exhaust any live subtree. -/
def getAllDescendants (db : DB) (cid : Nat) : List Nat :=
  descendantsAux db db.categories.length [cid]

/-! ## Binding store: reads -/

/-- Embeds `CheckCategoryAttributeExists` (`repository.go` line 738): live binding
exists for the pair. -/
def checkCategoryAttributeExists (db : DB) (cid aid : Nat) : Bool :=
  db.bindings.any (fun b => b.categoryId == cid && b.attributeId == aid && !b.deleted)

/-- Embeds `GetCategoryAttribute` (`repository.go` line 700): `First` = earliest-id
live row for the pair (rows are kept in id order). -/
def getCategoryAttribute (db : DB) (cid aid : Nat) : Option CategoryAttribute :=
  db.bindings.find? (fun b => b.categoryId == cid && b.attributeId == aid && !b.deleted)

/-- The `ORDER BY sort ASC, created_at DESC` key of `GetAttributesByCategoryID`. -/
def ownListKeyLe (x y : CategoryAttribute) : Bool :=
  if x.sort = y.sort then decide (y.id ≤ x.id) else decide (x.sort < y.sort)

/-- Embeds `GetAttributesByCategoryID` (`repository.go` line 628): the live bindings of
one category, ordered by `sort ASC, created_at DESC`. -/
def getAttributesByCategoryID (db : DB) (cid : Nat) : List CategoryAttribute :=
  orderBy ownListKeyLe (db.bindings.filter (fun b => b.categoryId == cid && !b.deleted))

/-! ## Binding store: writes -/

/-- Embeds `BindAttributeToCategory` (`repository.go` line 649): plain insert of a new
live row. -/
def bindAttributeToCategory (db : DB) (cid aid : Nat) (isRequired : Bool) (sort : Int) : DB :=
  { db with
    bindings := db.bindings ++
      [{ id := db.nextId, categoryId := cid, attributeId := aid,
         isRequired := isRequired, sort := sort, deleted := false }],
    nextId := db.nextId + 1 }

/-- GORM `Where("category_id = ? AND attribute_id = ?").Delete(...)`: GORM
soft-delete marks every live row of the pair deleted. -/
def softDeletePair (db : DB) (cid aid : Nat) : DB :=
  { db with bindings := db.bindings.map (fun b =>
      if b.categoryId == cid && b.attributeId == aid && !b.deleted then
        { b with deleted := true } else b) }

/-- Embeds `UnbindAttributeFromCategory` (`repository.go` line 660): soft-delete every
live row of the pair; `RowsAffected == 0` (no live row) is an error. -/
def unbindAttributeFromCategory (db : DB) (cid aid : Nat) : Except RepoError DB :=
  if checkCategoryAttributeExists db cid aid then .ok (softDeletePair db cid aid)
  else .error .bindingNotFound

/-- The field-wise payload applied by `Updates(updates)`: only supplied
fields change. -/
def updateFields (isRequired? : Option Bool) (sort? : Option Int)
    (b : CategoryAttribute) : CategoryAttribute :=
  { b with isRequired := isRequired?.getD b.isRequired, sort := sort?.getD b.sort }

/-- GORM `Model(...).Where("category_id = ? AND attribute_id = ?").Updates(...)`:
apply the supplied-fields update to every live row of the pair. -/
def updatePair (db : DB) (cid aid : Nat) (isRequired? : Option Bool)
    (sort? : Option Int) : DB :=
  { db with bindings := db.bindings.map (fun b =>
      if b.categoryId == cid && b.attributeId == aid && !b.deleted then
        updateFields isRequired? sort? b else b) }

/-- Embeds `UpdateCategoryAttribute` (`repository.go` line 673): no supplied field is a
silent no-op; otherwise update the live rows of the pair, erroring when none
exists (`RowsAffected == 0`). -/
def updateCategoryAttribute (db : DB) (cid aid : Nat) (isRequired? : Option Bool)
    (sort? : Option Int) : Except RepoError DB :=
  if isRequired?.isNone && sort?.isNone then .ok db
  else if checkCategoryAttributeExists db cid aid then
    .ok (updatePair db cid aid isRequired? sort?)
  else .error .bindingNotFound

/-- Embeds `BatchBindAttributesToCategory` (`repository.go` line 715): one transaction
inserting every entry in order; the inserts themselves perform no checks. -/
def batchBindAttributesToCategory (db : DB) (cid : Nat)
    (reqs : List CategoryAttributeBindRequest) : DB :=
  reqs.foldl (fun d r => bindAttributeToCategory d cid r.attributeId r.isRequired r.sort) db

/-! ## Inheritance resolver -/

/-- The join rows of `GetCategoryAttributesWithInheritance`'s raw query, before
its `ORDER BY`: for each live path category, its live bindings whose attribute
row is itself live (`INNER JOIN attributes … a.deleted_at IS NULL`), paired
with the path category's stored `level`. -/
def inheritanceJoinRows (db : DB) (cid : Nat) : List (Int × CategoryAttribute) :=
  (categoryPath db cid).foldr
    (fun c acc =>
      ((db.bindings.filter (fun b =>
          b.categoryId == c.id && !b.deleted && checkAttributeExists db b.attributeId)).map
        (fun b => (c.level, b))) ++ acc)
    []

/-- The raw query's `ORDER BY cp.level DESC, ca.sort ASC, ca.created_at ASC`.
The final component is the unique row id, so the key is total and injective and
the modelled sort order is the unique one. -/
def inheritanceKeyLe (x y : Int × CategoryAttribute) : Bool :=
  if x.1 = y.1 then
    if x.2.sort = y.2.sort then decide (x.2.id ≤ y.2.id)
    else decide (x.2.sort < y.2.sort)
  else decide (y.1 < x.1)

/-- Replace the first binding with the given attribute id (the in-place
替换 branch of the merge loop). -/
def replaceForAttribute (r : CategoryAttribute) : List CategoryAttribute → List CategoryAttribute
  | [] => []
  | b :: bs => if b.attributeId == r.attributeId then r :: bs else b :: replaceForAttribute r bs

/-- The merge loop of `GetCategoryAttributesWithInheritance` (lines 784-808):
walk the ordered join rows; a new attribute id is appended, a repeated one is
kept unless the row belongs to the target category, which replaces the earlier
entry.  `seen` is the key set of `attributeMap`.  (The per-row re-fetch by
primary key always succeeds — the row is live — and is dropped.) -/
def mergeRows (cid : Nat) : List (Int × CategoryAttribute) → List Nat →
    List CategoryAttribute → List CategoryAttribute
  | [], _, out => out
  | r :: rs, seen, out =>
    if seen.contains r.2.attributeId then
      if r.2.categoryId == cid then mergeRows cid rs seen (replaceForAttribute r.2 out)
      else mergeRows cid rs seen out
    else mergeRows cid rs (r.2.attributeId :: seen) (out ++ [r.2])

/-- Embeds `GetCategoryAttributesWithInheritance` (`repository.go` line 747). -/
def getCategoryAttributesWithInheritance (db : DB) (cid : Nat) : List CategoryAttribute :=
  mergeRows cid (orderBy inheritanceKeyLe (inheritanceJoinRows db cid)) [] []

/-- One entry of the service's inheritance response
(`CategoryAttributeWithInheritanceResponse`, fields the claims mention). -/
structure ResolvedBinding where
  bindingId : Nat
  categoryId : Nat
  attributeId : Nat
  isRequired : Bool
  sort : Int
  isInherited : Bool
  inheritedFrom : Option Nat
deriving Repr, DecidableEq

/-- Embeds `Service.GetCategoryAttributesWithInheritance` (service file line 331):
tags each merged row with `isInherited = (owning category ≠ target)` and, when
inherited, `inheritedFrom = owning category`. -/
def serviceGetCategoryAttributesWithInheritance (db : DB) (cid : Nat) : List ResolvedBinding :=
  (getCategoryAttributesWithInheritance db cid).map (fun b =>
    { bindingId := b.id, categoryId := b.categoryId, attributeId := b.attributeId,
      isRequired := b.isRequired, sort := b.sort,
      isInherited := b.categoryId != cid,
      inheritedFrom := if b.categoryId != cid then some b.categoryId else none })

/-! ## Cascade engine -/

/-- Embeds `isAttributeInheritedFromParent` (`repository.go` line 1143).  First a
GORM `First` (live) for the category's own binding; then the raw CTE bounded at
10 levels counts join rows between the strict-ancestor part of the path
restricted to `parentCategoryID` and the parent's `category_attributes` rows
for the attribute.  The raw query has **no** soft-delete filter on
`category_attributes`, so soft-deleted rows at the parent count — which is what
lets cascade-unbind fire after the parent's own row was just soft-deleted. -/
def isAttributeInheritedFromParent (db : DB) (cid aid pcid : Nat) : Bool :=
  match getCategoryAttribute db cid aid with
  | none => false
  | some _ =>
    let strictAncestorHits := ((pathToRoot db 10 cid).drop 1).countP (fun c => c.id == pcid)
    let rowsAtParent := db.bindings.countP (fun b => b.categoryId == pcid && b.attributeId == aid)
    decide (0 < strictAncestorHits * rowsAtParent)

/-- The transaction body of `CascadeBindAttributeToDescendants` (lines
1032-1057): per descendant, a live-count via the transaction handle (so it sees
the cascade's own earlier inserts), then an insert only when the count is zero.
A failing write aborts the whole transaction. -/
def cascadeBindAux (failWrite : Nat → Bool) (aid : Nat) (isRequired : Bool) (sort : Int) :
    List Nat → DB → Except RepoError DB
  | [], d => .ok d
  | c :: cs, d =>
    if checkCategoryAttributeExists d c aid then
      cascadeBindAux failWrite aid isRequired sort cs d
    else if failWrite c then .error (.cascadeStep c)
    else cascadeBindAux failWrite aid isRequired sort cs
      (bindAttributeToCategory d c aid isRequired sort)

/-- Embeds `CascadeBindAttributeToDescendants` (`repository.go` line 1020).  On
`.error` the surrounding transaction has rolled back, so the caller keeps the
pre-call state. -/
def cascadeBindAttributeToDescendants (db : DB) (failWrite : Nat → Bool) (cid aid : Nat)
    (isRequired : Bool) (sort : Int) : Except RepoError DB :=
  cascadeBindAux failWrite aid isRequired sort (getAllDescendants db cid) db

/-- The transaction body of `CascadeUnbindAttributeFromDescendants` (lines
1073-1091).  The provenance guard runs on `r.db` — the snapshot `db0` from
before the transaction — not on the transaction handle. -/
def cascadeUnbindAux (db0 : DB) (failWrite : Nat → Bool) (aid pcid : Nat) :
    List Nat → DB → Except RepoError DB
  | [], d => .ok d
  | c :: cs, d =>
    if isAttributeInheritedFromParent db0 c aid pcid then
      if failWrite c then .error (.cascadeStep c)
      else cascadeUnbindAux db0 failWrite aid pcid cs (softDeletePair d c aid)
    else cascadeUnbindAux db0 failWrite aid pcid cs d

/-- Embeds `CascadeUnbindAttributeFromDescendants` (`repository.go` line 1061). -/
def cascadeUnbindAttributeFromDescendants (db : DB) (failWrite : Nat → Bool)
    (pcid aid : Nat) : Except RepoError DB :=
  cascadeUnbindAux db failWrite aid pcid (getAllDescendants db pcid) db

/-- The transaction body of `CascadeUpdateAttributeInDescendants` (lines
1120-1139); same snapshot guard as the unbind cascade. -/
def cascadeUpdateAux (db0 : DB) (failWrite : Nat → Bool) (aid pcid : Nat)
    (isRequired? : Option Bool) (sort? : Option Int) :
    List Nat → DB → Except RepoError DB
  | [], d => .ok d
  | c :: cs, d =>
    if isAttributeInheritedFromParent db0 c aid pcid then
      if failWrite c then .error (.cascadeStep c)
      else cascadeUpdateAux db0 failWrite aid pcid isRequired? sort? cs
        (updatePair d c aid isRequired? sort?)
    else cascadeUpdateAux db0 failWrite aid pcid isRequired? sort? cs d

/-- Embeds `CascadeUpdateAttributeInDescendants` (`repository.go` line 1095): with no
supplied field there is nothing to update and the call is a no-op. -/
def cascadeUpdateAttributeInDescendants (db : DB) (failWrite : Nat → Bool)
    (pcid aid : Nat) (isRequired? : Option Bool) (sort? : Option Int) :
    Except RepoError DB :=
  if isRequired?.isNone && sort?.isNone then .ok db
  else cascadeUpdateAux db failWrite aid pcid isRequired? sort?
    (getAllDescendants db pcid) db

/-! ## Consistency validator / rebuilder -/

/-- The loop body of `RebuildInheritanceForCategory`'s transaction (lines
1216-1241): re-insert an entry owned by an ancestor whose attribute the target
neither owned before the call (`ownAttributeMap`) nor has a live row for in the
evolving transaction state. -/
def rebuildStep (cid : Nat) (ownIds : List Nat) (d : DB) (ia : CategoryAttribute) : DB :=
  if ia.categoryId != cid && !(ownIds.contains ia.attributeId) then
    if checkCategoryAttributeExists d cid ia.attributeId then d
    else bindAttributeToCategory d cid ia.attributeId ia.isRequired ia.sort
  else d

/-- The key set of `ownAttributeMap`: the attribute ids of the category's own
live bindings (`GetAttributesByCategoryID`'s rows; the map ignores their
order). -/
def ownAttributeIds (db : DB) (cid : Nat) : List Nat :=
  (db.bindings.filter (fun b => b.categoryId == cid && !b.deleted)).map
    (fun b => b.attributeId)

/-- Embeds `RebuildInheritanceForCategory` (`repository.go` line 1191): re-resolve the
effective set, then conservatively repair by running `rebuildStep` over it —
inserts only, never deletes. -/
def rebuildInheritanceForCategory (db : DB) (cid : Nat) : DB :=
  (getCategoryAttributesWithInheritance db cid).foldl
    (rebuildStep cid (ownAttributeIds db cid)) db

/-- Embeds `Service.ValidateInheritanceConsistency` (service file line 930).  Issues
are reported as the attribute ids of the offending entries ("继承属性%d缺少绑定
记录" — each message is determined by the id). -/
def validateInheritanceConsistency (db : DB) (cid : Nat) : Bool × List Nat :=
  let inherited := serviceGetCategoryAttributesWithInheritance db cid
  let ownIds := (getAttributesByCategoryID db cid).map (fun b => b.attributeId)
  let issues := inherited.foldl
    (fun acc ia =>
      if ia.isInherited then
        if !(checkCategoryAttributeExists db cid ia.attributeId)
            && !(ownIds.contains ia.attributeId) then
          acc ++ [ia.attributeId]
        else acc
      else acc)
    []
  (issues.isEmpty, issues)

/-! ## Service layer

Each operation returns its result together with the final database state; on
an error the direct mutation has been rolled back (or was never reached), and a
cascade error is logged, its transaction rolled back, and the direct result
kept (the 🔥 blocks of the service file). -/

/-- Embeds `Service.BindAttributeToCategory` (service file line 420). -/
def serviceBindAttributeToCategory (db : DB) (failWrite : Nat → Bool) (cid aid : Nat)
    (isRequired : Bool) (sort : Int) : Except RepoError CategoryAttribute × DB :=
  if !(checkAttributeExists db aid) then (.error .attributeNotFound, db)
  else if checkCategoryAttributeExists db cid aid then (.error .alreadyBound, db)
  else
    let db1 := bindAttributeToCategory db cid aid isRequired sort
    let db2 := match cascadeBindAttributeToDescendants db1 failWrite cid aid isRequired sort with
      | .ok d => d
      | .error _ => db1
    match getCategoryAttribute db2 cid aid with
    | none => (.error .bindingNotFound, db2)
    | some b => (.ok b, db2)

/-- Embeds `Service.UnbindAttributeFromCategory` (service file line 474). -/
def serviceUnbindAttributeFromCategory (db : DB) (failWrite : Nat → Bool)
    (cid aid : Nat) : Except RepoError Unit × DB :=
  if !(checkCategoryAttributeExists db cid aid) then (.error .bindingNotFound, db)
  else
    match unbindAttributeFromCategory db cid aid with
    | .error e => (.error e, db)
    | .ok db1 =>
      let db2 := match cascadeUnbindAttributeFromDescendants db1 failWrite cid aid with
        | .ok d => d
        | .error _ => db1
      (.ok (), db2)

/-- Embeds `Service.UpdateCategoryAttribute` (service file line 499). -/
def serviceUpdateCategoryAttribute (db : DB) (failWrite : Nat → Bool) (cid aid : Nat)
    (isRequired? : Option Bool) (sort? : Option Int) :
    Except RepoError CategoryAttribute × DB :=
  if !(checkCategoryAttributeExists db cid aid) then (.error .bindingNotFound, db)
  else
    match updateCategoryAttribute db cid aid isRequired? sort? with
    | .error e => (.error e, db)
    | .ok db1 =>
      let db2 := match cascadeUpdateAttributeInDescendants db1 failWrite cid aid
          isRequired? sort? with
        | .ok d => d
        | .error _ => db1
      match getCategoryAttribute db2 cid aid with
      | none => (.error .bindingNotFound, db2)
      | some b => (.ok b, db2)

/-- The validation loop at the head of `Service.BatchBindAttributesToCategory`
(service file lines 546-563), run before anything is persisted. -/
def validateBatch (db : DB) (cid : Nat) :
    List CategoryAttributeBindRequest → Nat → Option RepoError
  | [], _ => none
  | r :: rs, i =>
    if !(checkAttributeExists db r.attributeId) then some (.batchAttributeNotFound i)
    else if checkCategoryAttributeExists db cid r.attributeId then some (.batchAlreadyBound i)
    else validateBatch db cid rs (i + 1)

/-- Embeds `Service.BatchBindAttributesToCategory` (service file line 544): validate
everything, persist the batch in one transaction, then cascade per attribute,
ignoring (logging) each attribute's cascade error independently. -/
def serviceBatchBindAttributesToCategory (db : DB) (failWrite : Nat → Bool) (cid : Nat)
    (reqs : List CategoryAttributeBindRequest) : Except RepoError Unit × DB :=
  match validateBatch db cid reqs 0 with
  | some e => (.error e, db)
  | none =>
    let db1 := batchBindAttributesToCategory db cid reqs
    let db2 := reqs.foldl (fun d r =>
      match cascadeBindAttributeToDescendants d failWrite cid r.attributeId
          r.isRequired r.sort with
      | .ok dd => dd
      | .error _ => d) db1
    (.ok (), db2)

/-! ## Concrete states used to witness the theorems below -/

/-- Category 1 with children 2 and 3; attribute 10; category 2 already holds a
direct binding for attribute 10. -/
def c3db : DB :=
  ⟨[⟨1, none, 1, false⟩, ⟨2, some 1, 2, false⟩, ⟨3, some 1, 2, false⟩], [⟨10, false⟩],
   [⟨100, 2, 10, true, 9, false⟩], 101⟩

/-- State `c3db` after cascade-binding attribute 10 from category 1 with
`isRequired = false, sort = 4`: only category 3 received a row. -/
def c3db2 : DB :=
  ⟨[⟨1, none, 1, false⟩, ⟨2, some 1, 2, false⟩, ⟨3, some 1, 2, false⟩], [⟨10, false⟩],
   [⟨100, 2, 10, true, 9, false⟩, ⟨101, 3, 10, false, 4, false⟩], 102⟩

/-- Category 1 with child 2; attribute 10 bound live at both. -/
def c2adb : DB :=
  ⟨[⟨1, none, 1, false⟩, ⟨2, some 1, 2, false⟩], [⟨10, false⟩],
   [⟨100, 1, 10, false, 0, false⟩, ⟨101, 2, 10, false, 0, false⟩], 102⟩

/-- State `c2adb` after cascade-unbinding attribute 10 from category 1: the child's
row is soft-deleted. -/
def c2adb2 : DB :=
  ⟨[⟨1, none, 1, false⟩, ⟨2, some 1, 2, false⟩], [⟨10, false⟩],
   [⟨100, 1, 10, false, 0, false⟩, ⟨101, 2, 10, false, 0, true⟩], 102⟩

/-- A single root category and one live attribute, nothing bound. -/
def c5db : DB :=
  ⟨[⟨1, none, 1, false⟩], [⟨10, false⟩], [], 0⟩

/-- Two live attributes on a lone category, nothing bound (good batch), and a
live binding for attribute 12 (to reject a duplicate batch entry). -/
def c6db : DB :=
  ⟨[⟨1, none, 1, false⟩], [⟨10, false⟩, ⟨11, false⟩, ⟨12, false⟩],
   [⟨50, 1, 12, true, 0, false⟩], 51⟩

/-- Attribute 10 live and already live-bound to category 1; attribute 11 live
with only a soft-deleted row for the pair `(1, 11)`. -/
def c7db : DB :=
  ⟨[⟨1, none, 1, false⟩], [⟨10, false⟩, ⟨11, false⟩],
   [⟨100, 1, 10, true, 0, false⟩, ⟨101, 1, 11, true, 0, true⟩], 102⟩

/-- Category 1 with child 2, attributes 10 (bound at both) and 11 (unbound). -/
def c8db : DB :=
  ⟨[⟨1, none, 1, false⟩, ⟨2, some 1, 2, false⟩], [⟨10, false⟩, ⟨11, false⟩],
   [⟨100, 1, 10, true, 3, false⟩, ⟨101, 2, 10, true, 3, false⟩], 102⟩

/-- Category 1 with children 2 and 3, attribute 10 unbound everywhere. -/
def c9db : DB :=
  ⟨[⟨1, none, 1, false⟩, ⟨2, some 1, 2, false⟩, ⟨3, some 1, 2, false⟩], [⟨10, false⟩],
   [], 0⟩

/-! ## Generic list lemmas -/

theorem mem_insertLe {α : Type} (le : α → α → Bool) (a : α) :
    ∀ (l : List α) (b : α), b ∈ insertLe le a l ↔ b = a ∨ b ∈ l := by
  intro l
  induction l with
  | nil => intro b; simp [insertLe]
  | cons x xs ih =>
    intro b
    simp only [insertLe]
    by_cases h : le a x = true
    · simp [h]
    · simp only [h, if_neg, List.mem_cons, ih b, Bool.false_eq_true, if_false]
      tauto

theorem insertLe_perm {α : Type} (le : α → α → Bool) (a : α) :
    ∀ l : List α, List.Perm (insertLe le a l) (a :: l) := by
  intro l
  induction l with
  | nil => simp [insertLe]
  | cons x xs ih =>
    simp only [insertLe]
    by_cases h : le a x = true
    · simp [h]
    · simp only [h, Bool.false_eq_true, if_false]
      exact List.Perm.trans (List.Perm.cons x ih) (List.Perm.swap a x xs)

theorem orderBy_perm {α : Type} (le : α → α → Bool) :
    ∀ l : List α, List.Perm (orderBy le l) l := by
  intro l
  induction l with
  | nil => simp [orderBy]
  | cons x xs ih =>
    exact List.Perm.trans (insertLe_perm le x (orderBy le xs)) (List.Perm.cons x ih)

theorem mem_orderBy {α : Type} (le : α → α → Bool) (l : List α) (b : α) :
    b ∈ orderBy le l ↔ b ∈ l :=
  (orderBy_perm le l).mem_iff

theorem foldl_eq_self {α β : Type} (f : β → α → β) (b : β) :
    ∀ l : List α, (∀ a ∈ l, f b a = b) → l.foldl f b = b := by
  intro l
  induction l with
  | nil => intro _; rfl
  | cons x xs ih =>
    intro h
    have hx : f b x = b := h x (List.mem_cons_self x xs)
    simpa [List.foldl_cons, hx] using ih (fun a ha => h a (List.mem_cons_of_mem x ha))

theorem filter_map_eq_filter {α : Type} (p : α → Bool) (g : α → α) :
    ∀ l : List α, (∀ x ∈ l, p (g x) = p x) → (∀ x ∈ l, p x = true → g x = x) →
      (l.map g).filter p = l.filter p := by
  intro l
  induction l with
  | nil => intro _ _; rfl
  | cons x xs ih =>
    intro h1 h2
    have hx1 := h1 x (List.mem_cons_self x xs)
    have ihx := ih (fun y hy => h1 y (List.mem_cons_of_mem x hy))
      (fun y hy => h2 y (List.mem_cons_of_mem x hy))
    by_cases hp : p x = true
    · have hg : g x = x := h2 x (List.mem_cons_self x xs) hp
      simp [List.filter_cons, hx1, hg, hp, ihx]
    · have hp' : p x = false := by
        cases hpx : p x
        · rfl
        · exact absurd hpx hp
      simp [List.filter_cons, hx1, hp', ihx]

theorem filter_map_comm {α : Type} (p : α → Bool) (g : α → α) :
    ∀ l : List α, (∀ x ∈ l, p (g x) = p x) →
      (l.map g).filter p = (l.filter p).map g := by
  intro l
  induction l with
  | nil => intro _; rfl
  | cons x xs ih =>
    intro h1
    have hx1 := h1 x (List.mem_cons_self x xs)
    have ihx := ih (fun y hy => h1 y (List.mem_cons_of_mem x hy))
    by_cases hp : p x = true
    · simp [List.filter_cons, hx1, hp, ihx]
    · have hp' : p x = false := by
        cases hpx : p x
        · rfl
        · exact absurd hpx hp
      simp [List.filter_cons, hx1, hp', ihx]

theorem filter_map_nil {α : Type} (p : α → Bool) (g : α → α) :
    ∀ l : List α, (∀ x ∈ l, p (g x) = false) → (l.map g).filter p = [] := by
  intro l
  induction l with
  | nil => intro _; rfl
  | cons x xs ih =>
    intro h1
    have hx1 := h1 x (List.mem_cons_self x xs)
    have ihx := ih (fun y hy => h1 y (List.mem_cons_of_mem x hy))
    simp [List.filter_cons, hx1, ihx]

theorem find?_of_filter_singleton {α : Type} (p : α → Bool) :
    ∀ (l : List α) (x : α), l.filter p = [x] → l.find? p = some x := by
  intro l
  induction l with
  | nil => intro x h; simp at h
  | cons a as ih =>
    intro x h
    by_cases hp : p a = true
    · rw [List.filter_cons_of_pos hp] at h
      have hax : a = x := (List.cons.injEq a (List.filter p as) x []).mp h |>.1
      rw [List.find?_cons_of_pos _ hp, hax]
    · have hp' : p a = false := by
        cases hpx : p a
        · rfl
        · exact absurd hpx hp
      rw [List.filter_cons_of_neg (by simp [hp'])] at h
      rw [List.find?_cons_of_neg _ (by simp [hp'])]
      exact ih x h

/-! ## Row-level lemmas -/

theorem livePair_pred_iff (cid aid : Nat) (b : CategoryAttribute) :
    (b.categoryId == cid && b.attributeId == aid && !b.deleted) = true ↔
      b.categoryId = cid ∧ b.attributeId = aid ∧ b.deleted = false := by
  simp [Bool.and_assoc]

theorem livePairRows_eq_nil_iff (db : DB) (cid aid : Nat) :
    livePairRows db cid aid = [] ↔
      ∀ b ∈ db.bindings, ¬(b.categoryId = cid ∧ b.attributeId = aid ∧ b.deleted = false) := by
  unfold livePairRows
  rw [List.filter_eq_nil_iff]
  constructor
  · intro h b hb
    have := h b hb
    rw [livePair_pred_iff] at this
    exact this
  · intro h b hb
    rw [livePair_pred_iff]
    exact h b hb

theorem mem_livePairRows (db : DB) (cid aid : Nat) (b : CategoryAttribute) :
    b ∈ livePairRows db cid aid ↔
      b ∈ db.bindings ∧ b.categoryId = cid ∧ b.attributeId = aid ∧ b.deleted = false := by
  unfold livePairRows
  rw [List.mem_filter, livePair_pred_iff]

theorem checkCategoryAttributeExists_iff_exists (db : DB) (cid aid : Nat) :
    checkCategoryAttributeExists db cid aid = true ↔
      ∃ b ∈ db.bindings, b.categoryId = cid ∧ b.attributeId = aid ∧ b.deleted = false := by
  unfold checkCategoryAttributeExists
  rw [List.any_eq_true]
  constructor
  · rintro ⟨b, hb, hp⟩
    exact ⟨b, hb, (livePair_pred_iff cid aid b).mp hp⟩
  · rintro ⟨b, hb, hp⟩
    exact ⟨b, hb, (livePair_pred_iff cid aid b).mpr hp⟩

theorem checkCategoryAttributeExists_iff_live (db : DB) (cid aid : Nat) :
    checkCategoryAttributeExists db cid aid = true ↔ livePairRows db cid aid ≠ [] := by
  rw [checkCategoryAttributeExists_iff_exists]
  rw [Ne, livePairRows_eq_nil_iff]
  push_neg
  constructor
  · rintro ⟨b, hb, hp⟩
    exact ⟨b, hb, hp⟩
  · rintro ⟨b, hb, hp⟩
    exact ⟨b, hb, hp⟩

theorem checkCategoryAttributeExists_false_iff_nil (db : DB) (cid aid : Nat) :
    checkCategoryAttributeExists db cid aid = false ↔ livePairRows db cid aid = [] := by
  constructor
  · intro h
    by_contra hne
    have := (checkCategoryAttributeExists_iff_live db cid aid).mpr hne
    rw [h] at this
    exact Bool.false_ne_true this
  · intro h
    cases hc : checkCategoryAttributeExists db cid aid
    · rfl
    · have := (checkCategoryAttributeExists_iff_live db cid aid).mp hc
      exact absurd h this

theorem getCategoryAttribute_some_of_check (db : DB) (cid aid : Nat)
    (h : checkCategoryAttributeExists db cid aid = true) :
    ∃ b, getCategoryAttribute db cid aid = some b ∧
      b ∈ db.bindings ∧ b.categoryId = cid ∧ b.attributeId = aid ∧ b.deleted = false := by
  obtain ⟨b, hb, hp⟩ := (checkCategoryAttributeExists_iff_exists db cid aid).mp h
  have hsome : (db.bindings.find? (fun b =>
      b.categoryId == cid && b.attributeId == aid && !b.deleted)).isSome := by
    rw [List.find?_isSome]
    exact ⟨b, hb, (livePair_pred_iff cid aid b).mpr hp⟩
  obtain ⟨c, hc⟩ := Option.isSome_iff_exists.mp hsome
  refine ⟨c, hc, List.mem_of_find?_eq_some hc, ?_⟩
  have hpc := List.find?_some hc
  exact (livePair_pred_iff cid aid c).mp hpc

/-! ### Effect of the primitive writes on the row lists -/

theorem bindAttributeToCategory_bindings (db : DB) (c a : Nat) (req : Bool) (s : Int) :
    (bindAttributeToCategory db c a req s).bindings =
      db.bindings ++ [{ id := db.nextId, categoryId := c, attributeId := a,
                        isRequired := req, sort := s, deleted := false }] := rfl

theorem pairRows_bind_other (db : DB) (c0 a0 c a : Nat) (req : Bool) (s : Int)
    (h : ¬(c0 = c ∧ a0 = a)) :
    pairRows (bindAttributeToCategory db c0 a0 req s) c a = pairRows db c a ∧
    livePairRows (bindAttributeToCategory db c0 a0 req s) c a = livePairRows db c a := by
  have hrow : ∀ (p : CategoryAttribute → Bool),
      (p { id := db.nextId, categoryId := c0, attributeId := a0,
           isRequired := req, sort := s, deleted := false } = false) →
      ((bindAttributeToCategory db c0 a0 req s).bindings.filter p = db.bindings.filter p) := by
    intro p hp
    rw [bindAttributeToCategory_bindings, List.filter_append]
    simp [List.filter_cons, hp]
  constructor
  · apply hrow
    simp only [Bool.and_eq_false_iff]
    by_cases hc : c0 = c
    · have ha : a0 ≠ a := fun ha => h ⟨hc, ha⟩
      right
      simp [ha]
    · left
      simp [hc]
  · apply hrow
    simp only [Bool.and_eq_false_iff]
    by_cases hc : c0 = c
    · have ha : a0 ≠ a := fun ha => h ⟨hc, ha⟩
      left
      right
      simp [ha]
    · left
      left
      simp [hc]

theorem pairRows_bind_same (db : DB) (c a : Nat) (req : Bool) (s : Int) :
    pairRows (bindAttributeToCategory db c a req s) c a =
      pairRows db c a ++ [{ id := db.nextId, categoryId := c, attributeId := a,
                            isRequired := req, sort := s, deleted := false }] ∧
    livePairRows (bindAttributeToCategory db c a req s) c a =
      livePairRows db c a ++ [{ id := db.nextId, categoryId := c, attributeId := a,
                                isRequired := req, sort := s, deleted := false }] := by
  constructor
  · unfold pairRows
    rw [bindAttributeToCategory_bindings, List.filter_append]
    simp [List.filter_cons]
  · unfold livePairRows
    rw [bindAttributeToCategory_bindings, List.filter_append]
    simp [List.filter_cons]

theorem livePair_false_of_other (c0 a0 c a : Nat) (h : ¬(c0 = c ∧ a0 = a))
    (x : CategoryAttribute) (hx : (x.categoryId == c0 && x.attributeId == a0 && !x.deleted) = true) :
    (x.categoryId == c) = false ∨ (x.attributeId == a) = false := by
  obtain ⟨hc, ha, _⟩ := (livePair_pred_iff c0 a0 x).mp hx
  by_cases hcc : c0 = c
  · have haa : a0 ≠ a := fun haa => h ⟨hcc, haa⟩
    right
    rw [ha]
    exact beq_eq_false_iff_ne.mpr haa
  · left
    rw [hc]
    exact beq_eq_false_iff_ne.mpr hcc

theorem softDeletePair_rows_other (db : DB) (c0 a0 c a : Nat) (h : ¬(c0 = c ∧ a0 = a)) :
    pairRows (softDeletePair db c0 a0) c a = pairRows db c a ∧
    livePairRows (softDeletePair db c0 a0) c a = livePairRows db c a := by
  constructor
  · unfold pairRows softDeletePair
    apply filter_map_eq_filter
    · intro x _
      by_cases hx : (x.categoryId == c0 && x.attributeId == a0 && !x.deleted) = true
      · rw [if_pos hx]
      · rw [if_neg hx]
    · intro x _ hpx
      have hfalse : ¬((x.categoryId == c0 && x.attributeId == a0 && !x.deleted) = true) := by
        intro hx
        rcases livePair_false_of_other c0 a0 c a h x hx with hA | hB
        · rw [hA] at hpx
          simp at hpx
        · rw [hB] at hpx
          simp at hpx
      rw [if_neg hfalse]
  · unfold livePairRows softDeletePair
    apply filter_map_eq_filter
    · intro x _
      by_cases hx : (x.categoryId == c0 && x.attributeId == a0 && !x.deleted) = true
      · rw [if_pos hx]
        rcases livePair_false_of_other c0 a0 c a h x hx with hA | hB
        · simp [hA]
        · simp [hB]
      · rw [if_neg hx]
    · intro x _ hpx
      have hfalse : ¬((x.categoryId == c0 && x.attributeId == a0 && !x.deleted) = true) := by
        intro hx
        rcases livePair_false_of_other c0 a0 c a h x hx with hA | hB
        · rw [hA] at hpx
          simp at hpx
        · rw [hB] at hpx
          simp at hpx
      rw [if_neg hfalse]

theorem livePairRows_softDeletePair_same (db : DB) (c a : Nat) :
    livePairRows (softDeletePair db c a) c a = [] := by
  unfold livePairRows softDeletePair
  apply filter_map_nil
  intro x _
  by_cases hx : (x.categoryId == c && x.attributeId == a && !x.deleted) = true
  · rw [if_pos hx]
    simp
  · rw [if_neg hx]
    cases hp : (x.categoryId == c && x.attributeId == a && !x.deleted)
    · rfl
    · exact absurd hp hx

theorem updateFields_categoryId (r? : Option Bool) (s? : Option Int) (b : CategoryAttribute) :
    (updateFields r? s? b).categoryId = b.categoryId := rfl

theorem updateFields_attributeId (r? : Option Bool) (s? : Option Int) (b : CategoryAttribute) :
    (updateFields r? s? b).attributeId = b.attributeId := rfl

theorem updateFields_deleted (r? : Option Bool) (s? : Option Int) (b : CategoryAttribute) :
    (updateFields r? s? b).deleted = b.deleted := rfl

theorem updatePair_rows_other (db : DB) (c0 a0 : Nat) (r? : Option Bool) (s? : Option Int)
    (c a : Nat) (h : ¬(c0 = c ∧ a0 = a)) :
    pairRows (updatePair db c0 a0 r? s?) c a = pairRows db c a ∧
    livePairRows (updatePair db c0 a0 r? s?) c a = livePairRows db c a := by
  constructor
  · unfold pairRows updatePair
    apply filter_map_eq_filter
    · intro x _
      by_cases hx : (x.categoryId == c0 && x.attributeId == a0 && !x.deleted) = true
      · rw [if_pos hx]
        simp only [updateFields_categoryId, updateFields_attributeId]
      · rw [if_neg hx]
    · intro x _ hpx
      have hfalse : ¬((x.categoryId == c0 && x.attributeId == a0 && !x.deleted) = true) := by
        intro hx
        rcases livePair_false_of_other c0 a0 c a h x hx with hA | hB
        · rw [hA] at hpx
          simp at hpx
        · rw [hB] at hpx
          simp at hpx
      rw [if_neg hfalse]
  · unfold livePairRows updatePair
    apply filter_map_eq_filter
    · intro x _
      by_cases hx : (x.categoryId == c0 && x.attributeId == a0 && !x.deleted) = true
      · rw [if_pos hx]
        simp only [updateFields_categoryId, updateFields_attributeId, updateFields_deleted]
      · rw [if_neg hx]
    · intro x _ hpx
      have hfalse : ¬((x.categoryId == c0 && x.attributeId == a0 && !x.deleted) = true) := by
        intro hx
        rcases livePair_false_of_other c0 a0 c a h x hx with hA | hB
        · rw [hA] at hpx
          simp at hpx
        · rw [hB] at hpx
          simp at hpx
      rw [if_neg hfalse]

theorem livePairRows_updatePair_same (db : DB) (c a : Nat) (r? : Option Bool)
    (s? : Option Int) :
    livePairRows (updatePair db c a r? s?) c a =
      (livePairRows db c a).map (updateFields r? s?) := by
  unfold livePairRows updatePair
  rw [filter_map_comm]
  · apply List.map_congr_left
    intro x hx
    rw [if_pos (List.of_mem_filter hx)]
  · intro x _
    by_cases hx : (x.categoryId == c && x.attributeId == a && !x.deleted) = true
    · rw [if_pos hx]
      simp only [updateFields_categoryId, updateFields_attributeId, updateFields_deleted]
    · rw [if_neg hx]

theorem checkCategoryAttributeExists_mono (d1 d2 : DB)
    (hsub : ∀ b ∈ d1.bindings, b ∈ d2.bindings) (cid aid : Nat)
    (h : checkCategoryAttributeExists d1 cid aid = true) :
    checkCategoryAttributeExists d2 cid aid = true := by
  rw [checkCategoryAttributeExists_iff_exists] at h ⊢
  obtain ⟨b, hb, hp⟩ := h
  exact ⟨b, hsub b hb, hp⟩

/-! ## Cascade-bind lemmas -/

theorem cascadeBindAux_ok_nofail (aid : Nat) (req : Bool) (s : Int) :
    ∀ (ds : List Nat) (d : DB),
      ∃ d2, cascadeBindAux (fun _ => false) aid req s ds d = .ok d2 := by
  intro ds
  induction ds with
  | nil => intro d; exact ⟨d, rfl⟩
  | cons c cs ih =>
    intro d
    by_cases hc : checkCategoryAttributeExists d c aid = true
    · obtain ⟨d2, h2⟩ := ih d
      exact ⟨d2, by simp [cascadeBindAux, hc, h2]⟩
    · obtain ⟨d2, h2⟩ := ih (bindAttributeToCategory d c aid req s)
      refine ⟨d2, ?_⟩
      simp only [cascadeBindAux, Bool.not_eq_true] at hc ⊢
      rw [hc]
      simpa using h2

theorem cascadeBindAux_mem_mono (f : Nat → Bool) (aid : Nat) (req : Bool) (s : Int) :
    ∀ (ds : List Nat) (d d2 : DB), cascadeBindAux f aid req s ds d = .ok d2 →
      ∀ b ∈ d.bindings, b ∈ d2.bindings := by
  intro ds
  induction ds with
  | nil =>
    intro d d2 h b hb
    simp only [cascadeBindAux, Except.ok.injEq] at h
    rw [← h]
    exact hb
  | cons c cs ih =>
    intro d d2 h b hb
    by_cases hc : checkCategoryAttributeExists d c aid = true
    · rw [cascadeBindAux, if_pos hc] at h
      exact ih d d2 h b hb
    · rw [cascadeBindAux, if_neg hc] at h
      by_cases hf : f c = true
      · rw [if_pos hf] at h
        exact absurd h (by simp)
      · rw [if_neg hf] at h
        refine ih _ d2 h b ?_
        rw [bindAttributeToCategory_bindings]
        exact List.mem_append_left _ hb

theorem cascadeBindAux_preserve (f : Nat → Bool) (aid : Nat) (req : Bool) (s : Int)
    (c a : Nat) :
    ∀ (ds : List Nat) (d d2 : DB), cascadeBindAux f aid req s ds d = .ok d2 →
      (a ≠ aid ∨ livePairRows d c a ≠ []) →
      pairRows d2 c a = pairRows d c a ∧ livePairRows d2 c a = livePairRows d c a := by
  intro ds
  induction ds with
  | nil =>
    intro d d2 h _
    simp only [cascadeBindAux, Except.ok.injEq] at h
    rw [← h]
    exact ⟨rfl, rfl⟩
  | cons c1 cs ih =>
    intro d d2 h hside
    by_cases hc : checkCategoryAttributeExists d c1 aid = true
    · rw [cascadeBindAux, if_pos hc] at h
      exact ih d d2 h hside
    · rw [cascadeBindAux, if_neg hc] at h
      by_cases hf : f c1 = true
      · rw [if_pos hf] at h
        exact absurd h (by simp)
      · rw [if_neg hf] at h
        have hne : ¬(c1 = c ∧ aid = a) := by
          rintro ⟨hcc, haa⟩
          rcases hside with hA | hB
          · exact hA haa.symm
          · have : livePairRows d c1 aid = [] := by
              rw [← checkCategoryAttributeExists_false_iff_nil]
              cases hcx : checkCategoryAttributeExists d c1 aid
              · rfl
              · exact absurd hcx hc
            rw [hcc, haa] at this
            exact hB this
        obtain ⟨hp, hl⟩ := pairRows_bind_other d c1 aid c a req s hne
        have hside2 : a ≠ aid ∨ livePairRows (bindAttributeToCategory d c1 aid req s) c a ≠ [] := by
          rcases hside with hA | hB
          · exact Or.inl hA
          · rw [hl]
            exact Or.inr hB
        obtain ⟨hp2, hl2⟩ := ih _ d2 h hside2
        exact ⟨hp2.trans hp, hl2.trans hl⟩

theorem cascadeBindAux_inserts (f : Nat → Bool) (aid : Nat) (req : Bool) (s : Int)
    (c : Nat) :
    ∀ (ds : List Nat) (d d2 : DB), cascadeBindAux f aid req s ds d = .ok d2 →
      c ∈ ds → livePairRows d c aid = [] →
      ∃ i, livePairRows d2 c aid =
        [{ id := i, categoryId := c, attributeId := aid,
           isRequired := req, sort := s, deleted := false }] := by
  intro ds
  induction ds with
  | nil =>
    intro d d2 _ hmem
    exact absurd hmem (List.not_mem_nil c)
  | cons c1 cs ih =>
    intro d d2 h hmem hnil
    by_cases hcc : c1 = c
    · subst hcc
      have hchk : ¬(checkCategoryAttributeExists d c1 aid = true) := by
        intro hx
        rw [checkCategoryAttributeExists_iff_live] at hx
        exact hx hnil
      rw [cascadeBindAux, if_neg hchk] at h
      by_cases hf : f c1 = true
      · rw [if_pos hf] at h
        exact absurd h (by simp)
      · rw [if_neg hf] at h
        obtain ⟨_, hl⟩ := pairRows_bind_same d c1 aid req s
        rw [hnil] at hl
        simp only [List.nil_append] at hl
        have hnonnil : livePairRows (bindAttributeToCategory d c1 aid req s) c1 aid ≠ [] := by
          rw [hl]
          simp
        obtain ⟨_, hl2⟩ := cascadeBindAux_preserve f aid req s c1 aid cs _ d2 h (Or.inr hnonnil)
        exact ⟨d.nextId, hl2.trans hl⟩
    · have hmem2 : c ∈ cs := by
        rcases List.mem_cons.mp hmem with he | hm
        · exact absurd he.symm hcc
        · exact hm
      by_cases hc : checkCategoryAttributeExists d c1 aid = true
      · rw [cascadeBindAux, if_pos hc] at h
        exact ih d d2 h hmem2 hnil
      · rw [cascadeBindAux, if_neg hc] at h
        by_cases hf : f c1 = true
        · rw [if_pos hf] at h
          exact absurd h (by simp)
        · rw [if_neg hf] at h
          obtain ⟨_, hl⟩ := pairRows_bind_other d c1 aid c aid req s
            (by rintro ⟨hc1, _⟩; exact hcc hc1)
          rw [← hl] at hnil
          exact ih _ d2 h hmem2 hnil

/-! ## Cascade-unbind and cascade-update lemmas -/

theorem cascadeUnbindAux_ok_nofail (db0 : DB) (aid pcid : Nat) :
    ∀ (ds : List Nat) (d : DB),
      ∃ d2, cascadeUnbindAux db0 (fun _ => false) aid pcid ds d = .ok d2 := by
  intro ds
  induction ds with
  | nil => intro d; exact ⟨d, rfl⟩
  | cons c cs ih =>
    intro d
    by_cases hg : isAttributeInheritedFromParent db0 c aid pcid = true
    · obtain ⟨d2, h2⟩ := ih (softDeletePair d c aid)
      exact ⟨d2, by simp [cascadeUnbindAux, hg, h2]⟩
    · obtain ⟨d2, h2⟩ := ih d
      exact ⟨d2, by simp [cascadeUnbindAux, hg, h2]⟩

theorem cascadeUnbindAux_live (db0 : DB) (f : Nat → Bool) (aid pcid : Nat) (c : Nat) :
    ∀ (ds : List Nat) (d d2 : DB), cascadeUnbindAux db0 f aid pcid ds d = .ok d2 →
      livePairRows d2 c aid =
        (if c ∈ ds ∧ isAttributeInheritedFromParent db0 c aid pcid = true then []
         else livePairRows d c aid) := by
  intro ds
  induction ds with
  | nil =>
    intro d d2 h
    simp only [cascadeUnbindAux, Except.ok.injEq] at h
    rw [← h]
    simp
  | cons c1 cs ih =>
    intro d d2 h
    by_cases hg : isAttributeInheritedFromParent db0 c1 aid pcid = true
    · rw [cascadeUnbindAux, if_pos hg] at h
      by_cases hf : f c1 = true
      · rw [if_pos hf] at h
        exact absurd h (by simp)
      · rw [if_neg hf] at h
        have hIH := ih (softDeletePair d c1 aid) d2 h
        by_cases hcc : c1 = c
        · subst hcc
          rw [if_pos ⟨List.mem_cons_self c1 cs, hg⟩]
          by_cases hmem : c1 ∈ cs ∧ isAttributeInheritedFromParent db0 c1 aid pcid = true
          · rw [if_pos hmem] at hIH
            exact hIH
          · rw [if_neg hmem] at hIH
            rw [hIH, livePairRows_softDeletePair_same]
        · have hrows := (softDeletePair_rows_other d c1 aid c aid
            (by rintro ⟨he, _⟩; exact hcc he)).2
          rw [hrows] at hIH
          have hmemiff : (c ∈ c1 :: cs ∧ isAttributeInheritedFromParent db0 c aid pcid = true) ↔
              (c ∈ cs ∧ isAttributeInheritedFromParent db0 c aid pcid = true) := by
            constructor
            · rintro ⟨hm, hgc⟩
              rcases List.mem_cons.mp hm with he | hm2
              · exact absurd he.symm hcc
              · exact ⟨hm2, hgc⟩
            · rintro ⟨hm, hgc⟩
              exact ⟨List.mem_cons_of_mem c1 hm, hgc⟩
          by_cases hcond : c ∈ cs ∧ isAttributeInheritedFromParent db0 c aid pcid = true
          · rw [if_pos hcond] at hIH
            rw [if_pos (hmemiff.mpr hcond)]
            exact hIH
          · rw [if_neg hcond] at hIH
            rw [if_neg (fun hx => hcond (hmemiff.mp hx))]
            exact hIH
    · rw [cascadeUnbindAux, if_neg hg] at h
      have hIH := ih d d2 h
      have hgc : c = c1 → ¬(isAttributeInheritedFromParent db0 c aid pcid = true) := by
        intro he hx
        rw [he] at hx
        exact hg hx
      by_cases hcond : c ∈ cs ∧ isAttributeInheritedFromParent db0 c aid pcid = true
      · rw [if_pos hcond] at hIH
        rw [if_pos ⟨List.mem_cons_of_mem c1 hcond.1, hcond.2⟩]
        exact hIH
      · rw [if_neg hcond] at hIH
        have : ¬(c ∈ c1 :: cs ∧ isAttributeInheritedFromParent db0 c aid pcid = true) := by
          rintro ⟨hm, hgx⟩
          rcases List.mem_cons.mp hm with he | hm2
          · exact hgc he hgx
          · exact hcond ⟨hm2, hgx⟩
        rw [if_neg this]
        exact hIH

theorem cascadeUpdateAux_ok_nofail (db0 : DB) (aid pcid : Nat) (r? : Option Bool)
    (s? : Option Int) :
    ∀ (ds : List Nat) (d : DB),
      ∃ d2, cascadeUpdateAux db0 (fun _ => false) aid pcid r? s? ds d = .ok d2 := by
  intro ds
  induction ds with
  | nil => intro d; exact ⟨d, rfl⟩
  | cons c cs ih =>
    intro d
    by_cases hg : isAttributeInheritedFromParent db0 c aid pcid = true
    · obtain ⟨d2, h2⟩ := ih (updatePair d c aid r? s?)
      exact ⟨d2, by simp [cascadeUpdateAux, hg, h2]⟩
    · obtain ⟨d2, h2⟩ := ih d
      exact ⟨d2, by simp [cascadeUpdateAux, hg, h2]⟩

theorem cascadeUpdateAux_inv (db0 : DB) (f : Nat → Bool) (aid pcid : Nat)
    (r? : Option Bool) (s? : Option Int) (c : Nat) (P : CategoryAttribute → Prop)
    (hP : ∀ b, P (updateFields r? s? b)) :
    ∀ (ds : List Nat) (d d2 : DB), cascadeUpdateAux db0 f aid pcid r? s? ds d = .ok d2 →
      livePairRows d c aid ≠ [] → (∀ b ∈ livePairRows d c aid, P b) →
      livePairRows d2 c aid ≠ [] ∧ ∀ b ∈ livePairRows d2 c aid, P b := by
  intro ds
  induction ds with
  | nil =>
    intro d d2 h hne hall
    simp only [cascadeUpdateAux, Except.ok.injEq] at h
    rw [← h]
    exact ⟨hne, hall⟩
  | cons c1 cs ih =>
    intro d d2 h hne hall
    by_cases hg : isAttributeInheritedFromParent db0 c1 aid pcid = true
    · rw [cascadeUpdateAux, if_pos hg] at h
      by_cases hf : f c1 = true
      · rw [if_pos hf] at h
        exact absurd h (by simp)
      · rw [if_neg hf] at h
        by_cases hcc : c1 = c
        · subst hcc
          have hmap := livePairRows_updatePair_same d c1 aid r? s?
          refine ih _ d2 h ?_ ?_
          · rw [hmap]
            intro hx
            exact hne (List.map_eq_nil_iff.mp hx)
          · rw [hmap]
            intro b hb
            obtain ⟨b0, _, hb0⟩ := List.mem_map.mp hb
            rw [← hb0]
            exact hP b0
        · have hrows := (updatePair_rows_other d c1 aid r? s? c aid
            (by rintro ⟨he, _⟩; exact hcc he)).2
          refine ih _ d2 h ?_ ?_
          · rw [hrows]
            exact hne
          · rw [hrows]
            exact hall
    · rw [cascadeUpdateAux, if_neg hg] at h
      exact ih d d2 h hne hall

/-! ## Guard characterization and service-level helpers -/

theorem getCategoryAttribute_of_livePair_singleton (db : DB) (cid aid : Nat)
    (x : CategoryAttribute) (h : livePairRows db cid aid = [x]) :
    getCategoryAttribute db cid aid = some x :=
  find?_of_filter_singleton _ db.bindings x h

theorem getCategoryAttribute_none_iff (db : DB) (cid aid : Nat) :
    getCategoryAttribute db cid aid = none ↔ livePairRows db cid aid = [] := by
  unfold getCategoryAttribute
  rw [List.find?_eq_none, livePairRows_eq_nil_iff]
  constructor
  · intro h b hb hp
    exact h b hb ((livePair_pred_iff cid aid b).mpr hp)
  · intro h b hb hp
    exact h b hb ((livePair_pred_iff cid aid b).mp hp)

theorem isAttributeInheritedFromParent_iff (db : DB) (c aid p : Nat) :
    isAttributeInheritedFromParent db c aid p = true ↔
      livePairRows db c aid ≠ [] ∧
      (∃ cc ∈ (pathToRoot db 10 c).drop 1, cc.id = p) ∧
      (∃ b ∈ db.bindings, b.categoryId = p ∧ b.attributeId = aid) := by
  unfold isAttributeInheritedFromParent
  cases hfind : getCategoryAttribute db c aid with
  | none =>
    have hnil : livePairRows db c aid = [] := (getCategoryAttribute_none_iff db c aid).mp hfind
    simp only []
    constructor
    · intro h
      exact absurd h (by simp)
    · rintro ⟨hne, _, _⟩
      exact absurd hnil hne
  | some b =>
    have hne : livePairRows db c aid ≠ [] := by
      intro hnil
      rw [(getCategoryAttribute_none_iff db c aid).mpr hnil] at hfind
      exact Option.noConfusion hfind
    simp only [decide_eq_true_eq]
    constructor
    · intro h
      have hc1 : 0 < ((pathToRoot db 10 c).drop 1).countP (fun cc => cc.id == p) := by
        rcases Nat.eq_zero_or_pos (((pathToRoot db 10 c).drop 1).countP
          (fun cc => cc.id == p)) with hz | hp1
        · rw [hz] at h
          simp at h
        · exact hp1
      have hc2 : 0 < db.bindings.countP (fun b => b.categoryId == p && b.attributeId == aid) := by
        rcases Nat.eq_zero_or_pos (db.bindings.countP
          (fun b => b.categoryId == p && b.attributeId == aid)) with hz | hp2
        · rw [hz] at h
          simp at h
        · exact hp2
      obtain ⟨cc, hcc, hccp⟩ := List.countP_pos_iff.mp hc1
      obtain ⟨bb, hbb, hbbp⟩ := List.countP_pos_iff.mp hc2
      refine ⟨hne, ⟨cc, hcc, by simpa using hccp⟩, ⟨bb, hbb, ?_⟩⟩
      have := (Bool.and_eq_true _ _).mp hbbp
      exact ⟨by simpa using this.1, by simpa using this.2⟩
    · rintro ⟨_, ⟨cc, hcc, hccp⟩, ⟨bb, hbb, hbbc, hbba⟩⟩
      have h1 : 0 < ((pathToRoot db 10 c).drop 1).countP (fun cc => cc.id == p) :=
        List.countP_pos_iff.mpr ⟨cc, hcc, by simpa using hccp⟩
      have h2 : 0 < db.bindings.countP (fun b => b.categoryId == p && b.attributeId == aid) :=
        List.countP_pos_iff.mpr ⟨bb, hbb, by simp [hbbc, hbba]⟩
      exact Nat.mul_pos h1 h2

/-- After both service checks pass, `Service.BindAttributeToCategory` succeeds
for any cascade fault pattern, the pair's live rows are exactly the fresh
direct insert, and no pre-existing row disappears. -/
theorem serviceBind_ok_of_checks (db : DB) (f : Nat → Bool) (cid aid : Nat)
    (req : Bool) (s : Int)
    (hattr : checkAttributeExists db aid = true)
    (hfree : checkCategoryAttributeExists db cid aid = false) :
    ∃ db2, serviceBindAttributeToCategory db f cid aid req s =
        (.ok { id := db.nextId, categoryId := cid, attributeId := aid,
               isRequired := req, sort := s, deleted := false }, db2) ∧
      livePairRows db2 cid aid =
        [{ id := db.nextId, categoryId := cid, attributeId := aid,
           isRequired := req, sort := s, deleted := false }] ∧
      ∀ x ∈ db.bindings, x ∈ db2.bindings := by
  have hnil : livePairRows db cid aid = [] :=
    (checkCategoryAttributeExists_false_iff_nil db cid aid).mp hfree
  set newRow : CategoryAttribute :=
    { id := db.nextId, categoryId := cid, attributeId := aid,
      isRequired := req, sort := s, deleted := false } with hnew
  set db1 := bindAttributeToCategory db cid aid req s with hdb1
  have hlive1 : livePairRows db1 cid aid = [newRow] := by
    have := (pairRows_bind_same db cid aid req s).2
    rw [hnil] at this
    simpa using this
  have hmem1 : ∀ x ∈ db.bindings, x ∈ db1.bindings := by
    intro x hx
    rw [hdb1, bindAttributeToCategory_bindings]
    exact List.mem_append_left _ hx
  have hmain : ∀ db2, (livePairRows db2 cid aid = [newRow] ∧ ∀ x ∈ db1.bindings, x ∈ db2.bindings) →
      serviceBindAttributeToCategory db f cid aid req s = (.ok newRow, db2) →
      ∃ db2, serviceBindAttributeToCategory db f cid aid req s = (.ok newRow, db2) ∧
        livePairRows db2 cid aid = [newRow] ∧ ∀ x ∈ db.bindings, x ∈ db2.bindings := by
    intro db2 ⟨h1, h2⟩ h3
    exact ⟨db2, h3, h1, fun x hx => h2 x (hmem1 x hx)⟩
  unfold serviceBindAttributeToCategory
  rw [hattr]
  simp only [Bool.not_true, Bool.false_eq_true, if_false, hfree, ← hdb1]
  cases hcas : cascadeBindAttributeToDescendants db1 f cid aid req s with
  | ok d =>
    have hpres := cascadeBindAux_preserve f aid req s cid aid
      (getAllDescendants db1 cid) db1 d hcas (Or.inr (by rw [hlive1]; simp))
    have hlive2 : livePairRows d cid aid = [newRow] := hpres.2.trans hlive1
    have hget : getCategoryAttribute d cid aid = some newRow :=
      getCategoryAttribute_of_livePair_singleton d cid aid newRow hlive2
    simp only [hget]
    exact ⟨d, rfl, hlive2,
      fun x hx => cascadeBindAux_mem_mono f aid req s _ db1 d hcas x (hmem1 x hx)⟩
  | error e =>
    have hget : getCategoryAttribute db1 cid aid = some newRow :=
      getCategoryAttribute_of_livePair_singleton db1 cid aid newRow hlive1
    simp only [hget]
    exact ⟨db1, rfl, hlive1, hmem1⟩

/-- Filtering the direct-binding listing of a category down to one attribute
is, up to order, the pair's live row list. -/
theorem getAttributes_filter_perm (db : DB) (cid aid : Nat) :
    List.Perm ((getAttributesByCategoryID db cid).filter (fun x => x.attributeId == aid))
      (livePairRows db cid aid) := by
  unfold getAttributesByCategoryID
  refine ((orderBy_perm ownListKeyLe _).filter _).trans ?_
  rw [List.filter_filter]
  have : (db.bindings.filter fun a =>
      a.attributeId == aid && (a.categoryId == cid && !a.deleted)) =
      livePairRows db cid aid := by
    unfold livePairRows
    apply List.filter_congr
    intro x _
    cases hc : x.categoryId == cid <;> cases ha : x.attributeId == aid <;>
      cases hd : !x.deleted <;> rfl
  rw [this]

theorem cascadeBindAux_error_of_fault (f : Nat → Bool) (aid : Nat) (req : Bool) (s : Int) :
    ∀ (ds : List Nat) (d : DB),
      (∃ c ∈ ds, f c = true ∧ livePairRows d c aid = []) →
      ∃ c, cascadeBindAux f aid req s ds d = .error (.cascadeStep c) ∧ f c = true := by
  intro ds
  induction ds with
  | nil =>
    intro d h
    obtain ⟨c, hc, _⟩ := h
    exact absurd hc (List.not_mem_nil c)
  | cons c1 cs ih =>
    intro d h
    obtain ⟨c, hc, hfc, hnil⟩ := h
    by_cases hcc : c = c1
    · subst hcc
      have hchk : ¬(checkCategoryAttributeExists d c aid = true) := by
        intro hx
        rw [checkCategoryAttributeExists_iff_live] at hx
        exact hx hnil
      rw [cascadeBindAux, if_neg hchk, if_pos hfc]
      exact ⟨c, rfl, hfc⟩
    · have hcs : c ∈ cs := by
        rcases List.mem_cons.mp hc with he | hm
        · exact absurd he hcc
        · exact hm
      by_cases hchk : checkCategoryAttributeExists d c1 aid = true
      · rw [cascadeBindAux, if_pos hchk]
        exact ih d ⟨c, hcs, hfc, hnil⟩
      · rw [cascadeBindAux, if_neg hchk]
        by_cases hf1 : f c1 = true
        · rw [if_pos hf1]
          exact ⟨c1, rfl, hf1⟩
        · rw [if_neg hf1]
          have hnil2 : livePairRows (bindAttributeToCategory d c1 aid req s) c aid = [] := by
            rw [(pairRows_bind_other d c1 aid c aid req s
              (by rintro ⟨he, _⟩; exact hcc he.symm)).2]
            exact hnil
          exact ih _ ⟨c, hcs, hfc, hnil2⟩

theorem cascadeUnbindAux_error_of_fault (db0 : DB) (f : Nat → Bool) (aid pcid : Nat) :
    ∀ (ds : List Nat) (d : DB),
      (∃ c ∈ ds, f c = true ∧ isAttributeInheritedFromParent db0 c aid pcid = true) →
      ∃ c, cascadeUnbindAux db0 f aid pcid ds d = .error (.cascadeStep c) ∧ f c = true := by
  intro ds
  induction ds with
  | nil =>
    intro d h
    obtain ⟨c, hc, _⟩ := h
    exact absurd hc (List.not_mem_nil c)
  | cons c1 cs ih =>
    intro d h
    obtain ⟨c, hc, hfc, hgc⟩ := h
    by_cases hg : isAttributeInheritedFromParent db0 c1 aid pcid = true
    · rw [cascadeUnbindAux, if_pos hg]
      by_cases hf1 : f c1 = true
      · rw [if_pos hf1]
        exact ⟨c1, rfl, hf1⟩
      · rw [if_neg hf1]
        have hcs : c ∈ cs := by
          rcases List.mem_cons.mp hc with rfl | hm
          · exact absurd hfc hf1
          · exact hm
        exact ih (softDeletePair d c1 aid) ⟨c, hcs, hfc, hgc⟩
    · rw [cascadeUnbindAux, if_neg hg]
      have hcs : c ∈ cs := by
        rcases List.mem_cons.mp hc with rfl | hm
        · exact absurd hgc hg
        · exact hm
      exact ih d ⟨c, hcs, hfc, hgc⟩

theorem cascadeUpdateAux_error_of_fault (db0 : DB) (f : Nat → Bool) (aid pcid : Nat)
    (r? : Option Bool) (s? : Option Int) :
    ∀ (ds : List Nat) (d : DB),
      (∃ c ∈ ds, f c = true ∧ isAttributeInheritedFromParent db0 c aid pcid = true) →
      ∃ c, cascadeUpdateAux db0 f aid pcid r? s? ds d = .error (.cascadeStep c) ∧
        f c = true := by
  intro ds
  induction ds with
  | nil =>
    intro d h
    obtain ⟨c, hc, _⟩ := h
    exact absurd hc (List.not_mem_nil c)
  | cons c1 cs ih =>
    intro d h
    obtain ⟨c, hc, hfc, hgc⟩ := h
    by_cases hg : isAttributeInheritedFromParent db0 c1 aid pcid = true
    · rw [cascadeUpdateAux, if_pos hg]
      by_cases hf1 : f c1 = true
      · rw [if_pos hf1]
        exact ⟨c1, rfl, hf1⟩
      · rw [if_neg hf1]
        have hcs : c ∈ cs := by
          rcases List.mem_cons.mp hc with rfl | hm
          · exact absurd hfc hf1
          · exact hm
        exact ih (updatePair d c1 aid r? s?) ⟨c, hcs, hfc, hgc⟩
    · rw [cascadeUpdateAux, if_neg hg]
      have hcs : c ∈ cs := by
        rcases List.mem_cons.mp hc with rfl | hm
        · exact absurd hgc hg
        · exact hm
      exact ih d ⟨c, hcs, hfc, hgc⟩

theorem validateBatch_some_of_bad (db : DB) (cid : Nat) :
    ∀ (reqs : List CategoryAttributeBindRequest) (i : Nat),
      (∃ r ∈ reqs, checkAttributeExists db r.attributeId = false ∨
        checkCategoryAttributeExists db cid r.attributeId = true) →
      ∃ e, validateBatch db cid reqs i = some e := by
  intro reqs
  induction reqs with
  | nil =>
    intro i h
    obtain ⟨r, hr, _⟩ := h
    exact absurd hr (List.not_mem_nil r)
  | cons r0 rest ih =>
    intro i h
    by_cases ha : checkAttributeExists db r0.attributeId = true
    · by_cases hb : checkCategoryAttributeExists db cid r0.attributeId = true
      · exact ⟨.batchAlreadyBound i, by simp [validateBatch, ha, hb]⟩
      · obtain ⟨r, hr, hcase⟩ := h
        have hrest : r ∈ rest := by
          rcases List.mem_cons.mp hr with he | hm
          · subst he
            rcases hcase with h1 | h2
            · rw [ha] at h1
              exact absurd h1 (by simp)
            · exact absurd h2 hb
          · exact hm
        obtain ⟨e, he⟩ := ih (i + 1) ⟨r, hrest, hcase⟩
        exact ⟨e, by simp [validateBatch, ha, hb, he]⟩
    · have ha' : checkAttributeExists db r0.attributeId = false := by
        cases hx : checkAttributeExists db r0.attributeId
        · rfl
        · exact absurd hx ha
      exact ⟨.batchAttributeNotFound i, by simp [validateBatch, ha']⟩

theorem validateBatch_none_of_good (db : DB) (cid : Nat) :
    ∀ (reqs : List CategoryAttributeBindRequest) (i : Nat),
      (∀ r ∈ reqs, checkAttributeExists db r.attributeId = true ∧
        checkCategoryAttributeExists db cid r.attributeId = false) →
      validateBatch db cid reqs i = none := by
  intro reqs
  induction reqs with
  | nil => intro i _; rfl
  | cons r0 rest ih =>
    intro i h
    obtain ⟨ha, hb⟩ := h r0 (List.mem_cons_self r0 rest)
    have := ih (i + 1) (fun r hr => h r (List.mem_cons_of_mem r0 hr))
    simp [validateBatch, ha, hb, this]

theorem batchBind_mem_mono (cid : Nat) :
    ∀ (reqs : List CategoryAttributeBindRequest) (d : DB) (b : CategoryAttribute),
      b ∈ d.bindings → b ∈ (batchBindAttributesToCategory d cid reqs).bindings := by
  intro reqs
  induction reqs with
  | nil => intro d b hb; exact hb
  | cons r0 rest ih =>
    intro d b hb
    unfold batchBindAttributesToCategory at ih ⊢
    rw [List.foldl_cons]
    refine ih _ b ?_
    rw [bindAttributeToCategory_bindings]
    exact List.mem_append_left _ hb

theorem batchBind_inserts (cid : Nat) :
    ∀ (reqs : List CategoryAttributeBindRequest) (d : DB), ∀ r ∈ reqs,
      ∃ b ∈ (batchBindAttributesToCategory d cid reqs).bindings,
        b.categoryId = cid ∧ b.attributeId = r.attributeId ∧
        b.isRequired = r.isRequired ∧ b.sort = r.sort ∧ b.deleted = false := by
  intro reqs
  induction reqs with
  | nil =>
    intro d r hr
    exact absurd hr (List.not_mem_nil r)
  | cons r0 rest ih =>
    intro d r hr
    rcases List.mem_cons.mp hr with he | hm
    · subst he
      refine ⟨{ id := d.nextId, categoryId := cid, attributeId := r.attributeId,
                isRequired := r.isRequired, sort := r.sort, deleted := false }, ?_,
        rfl, rfl, rfl, rfl, rfl⟩
      unfold batchBindAttributesToCategory
      rw [List.foldl_cons]
      refine batchBind_mem_mono cid rest _ _ ?_
      rw [bindAttributeToCategory_bindings]
      exact List.mem_append_right _ (List.mem_singleton_self _)
    · unfold batchBindAttributesToCategory
      rw [List.foldl_cons]
      exact ih _ r hm

theorem cascadeFold_mem_mono (f : Nat → Bool) (cid : Nat) :
    ∀ (reqs : List CategoryAttributeBindRequest) (d : DB) (b : CategoryAttribute),
      b ∈ d.bindings →
      b ∈ (reqs.foldl (fun d r =>
        match cascadeBindAttributeToDescendants d f cid r.attributeId
            r.isRequired r.sort with
        | .ok dd => dd
        | .error _ => d) d).bindings := by
  intro reqs
  induction reqs with
  | nil => intro d b hb; exact hb
  | cons r0 rest ih =>
    intro d b hb
    rw [List.foldl_cons]
    refine ih _ b ?_
    cases hcas : cascadeBindAttributeToDescendants d f cid r0.attributeId
        r0.isRequired r0.sort with
    | ok dd =>
      simp only [hcas]
      exact cascadeBindAux_mem_mono f r0.attributeId r0.isRequired r0.sort _ d dd hcas b hb
    | error e =>
      simp only [hcas]
      exact hb

/-! ## Claim theorems -/

/-- C3: no-clobber on cascade-bind.  For every descendant `c` of `cid`, a
descendant that already has a live binding for the attribute keeps its rows
(soft-deleted ones included) completely untouched by
`CascadeBindAttributeToDescendants`, and a descendant with no live binding
receives exactly one new live binding carrying the cascaded `isRequired` and
`sort` values. -/
theorem cascade_bind_no_clobber (db : DB) (cid aid : Nat) (req : Bool) (s : Int)
    (d2 : DB)
    (hok : cascadeBindAttributeToDescendants db (fun _ => false) cid aid req s = .ok d2)
    (c : Nat) (hc : c ∈ getAllDescendants db cid) :
    (livePairRows db c aid ≠ [] →
      pairRows d2 c aid = pairRows db c aid ∧
      livePairRows d2 c aid = livePairRows db c aid) ∧
    (livePairRows db c aid = [] →
      ∃ i, livePairRows d2 c aid =
        [{ id := i, categoryId := c, attributeId := aid,
           isRequired := req, sort := s, deleted := false }]) := by
  unfold cascadeBindAttributeToDescendants at hok
  constructor
  · intro hne
    exact cascadeBindAux_preserve _ aid req s c aid _ db d2 hok (Or.inr hne)
  · intro hnil
    exact cascadeBindAux_inserts _ aid req s c _ db d2 hok hc hnil

/-- Witness for C3 on `c3db`: descendant 2 (already bound) keeps its row
verbatim; descendant 3 (unbound) receives the cascaded values. -/
theorem cascade_bind_no_clobber_witness :
    (pairRows c3db2 2 10 = pairRows c3db 2 10 ∧
     livePairRows c3db2 2 10 = livePairRows c3db 2 10) ∧
    (∃ i, livePairRows c3db2 3 10 =
      [{ id := i, categoryId := 3, attributeId := 10,
         isRequired := false, sort := 4, deleted := false }]) :=
  ⟨(cascade_bind_no_clobber c3db 1 10 false 4 c3db2 (by decide) 2 (by decide)).1 (by decide),
   (cascade_bind_no_clobber c3db 1 10 false 4 c3db2 (by decide) 3 (by decide)).2 (by decide)⟩

/-- C2 is falsified by the code: build the tree C(1) → D(2), bind attribute 10
*directly* at D (a Bind call targeting D), then bind it at C (the no-clobber
guard leaves D's row intact), then unbind it at C.  D's direct binding is
soft-deleted by the cascade even though it was never inherited from C. -/
theorem cascade_unbind_provenance_counterexample :
    (let db0 : DB := ⟨[⟨1, none, 1, false⟩, ⟨2, some 1, 2, false⟩], [⟨10, false⟩], [], 0⟩
     let db1 := (serviceBindAttributeToCategory db0 (fun _ => false) 2 10 true 5).2
     let db2 := (serviceBindAttributeToCategory db1 (fun _ => false) 1 10 false 0).2
     let res := serviceUnbindAttributeFromCategory db2 (fun _ => false) 1 10
     livePairRows db2 2 10 =
        [{ id := 0, categoryId := 2, attributeId := 10, isRequired := true, sort := 5,
           deleted := false }] ∧
     res.1 = .ok () ∧
     livePairRows res.2 2 10 = []) := by decide

/-- C2 amended: `CascadeUnbindAttributeFromDescendants(C, X)` soft-deletes a
descendant D's live rows for X exactly when D has a live binding for X, C lies
on D's live ancestor chain within ten levels, and C has **any** row for X —
live or soft-deleted.  Whether D's binding was direct, cascaded from C, or
inherited from a closer ancestor plays no role. -/
theorem cascade_unbind_parent_row_wins (db : DB) (pcid aid : Nat) (d2 : DB)
    (hok : cascadeUnbindAttributeFromDescendants db (fun _ => false) pcid aid = .ok d2)
    (c : Nat) :
    livePairRows d2 c aid =
      (if c ∈ getAllDescendants db pcid ∧
          livePairRows db c aid ≠ [] ∧
          (∃ cc ∈ (pathToRoot db 10 c).drop 1, cc.id = pcid) ∧
          (∃ b ∈ db.bindings, b.categoryId = pcid ∧ b.attributeId = aid)
       then [] else livePairRows db c aid) := by
  unfold cascadeUnbindAttributeFromDescendants at hok
  have hstep := cascadeUnbindAux_live db (fun _ => false) aid pcid c
    (getAllDescendants db pcid) db d2 hok
  rw [hstep]
  by_cases h1 : c ∈ getAllDescendants db pcid ∧
      isAttributeInheritedFromParent db c aid pcid = true
  · rw [if_pos h1]
    obtain ⟨hne, hpath, hrow⟩ := (isAttributeInheritedFromParent_iff db c aid pcid).mp h1.2
    rw [if_pos ⟨h1.1, hne, hpath, hrow⟩]
  · rw [if_neg h1]
    have : ¬(c ∈ getAllDescendants db pcid ∧
        livePairRows db c aid ≠ [] ∧
        (∃ cc ∈ (pathToRoot db 10 c).drop 1, cc.id = pcid) ∧
        (∃ b ∈ db.bindings, b.categoryId = pcid ∧ b.attributeId = aid)) := by
      rintro ⟨hm, hrest⟩
      exact h1 ⟨hm, (isAttributeInheritedFromParent_iff db c aid pcid).mpr hrest⟩
    rw [if_neg this]

/-- Witness for the amended C2 on `c2adb`: child 2's live row for attribute 10
is removed because parent 1 holds a row for it. -/
theorem cascade_unbind_parent_row_wins_witness :
    livePairRows c2adb2 2 10 =
      (if 2 ∈ getAllDescendants c2adb 1 ∧
          livePairRows c2adb 2 10 ≠ [] ∧
          (∃ cc ∈ (pathToRoot c2adb 10 2).drop 1, cc.id = 1) ∧
          (∃ b ∈ c2adb.bindings, b.categoryId = 1 ∧ b.attributeId = 10)
       then [] else livePairRows c2adb 2 10) :=
  cascade_unbind_parent_row_wins c2adb 1 10 c2adb2 (by decide) 2

/-- C10: updating a live binding with neither field supplied succeeds, returns
the pair's binding, and leaves the database state — the whole binding table
included — exactly as it was; the cascade helper is a no-op as well. -/
theorem update_no_fields_noop (db : DB) (f : Nat → Bool) (cid aid : Nat)
    (h : checkCategoryAttributeExists db cid aid = true) :
    ∃ b, serviceUpdateCategoryAttribute db f cid aid none none = (.ok b, db) ∧
      getCategoryAttribute db cid aid = some b := by
  obtain ⟨b, hb, _⟩ := getCategoryAttribute_some_of_check db cid aid h
  refine ⟨b, ?_, hb⟩
  unfold serviceUpdateCategoryAttribute
  rw [h]
  simp only [Bool.not_true, Bool.false_eq_true, if_false]
  unfold updateCategoryAttribute cascadeUpdateAttributeInDescendants
  simp only [Option.isNone_none, Bool.and_self, if_true, hb]

/-- Witness for C10 on `c8db`. -/
theorem update_no_fields_noop_witness :
    ∃ b, serviceUpdateCategoryAttribute c8db (fun _ => true) 1 10 none none = (.ok b, c8db) ∧
      getCategoryAttribute c8db 1 10 = some b :=
  update_no_fields_noop c8db (fun _ => true) 1 10 (by decide)

/-- C7 is falsified on one reachable edge: when the pair has a live binding but
the attribute row itself was soft-deleted (attribute deletion does not cascade
to bindings), `Service.BindAttributeToCategory` checks attribute existence
first and returns the attribute-not-found error, not the duplicate-binding
error (the state is unchanged either way). -/
theorem duplicate_bind_counterexample :
    (serviceBindAttributeToCategory
        ⟨[⟨1, none, 1, false⟩], [⟨10, true⟩], [⟨100, 1, 10, true, 0, false⟩], 101⟩
        (fun _ => false) 1 10 false 0).1 = .error .attributeNotFound ∧
    RepoError.attributeNotFound ≠ RepoError.alreadyBound ∧
    (serviceBindAttributeToCategory
        ⟨[⟨1, none, 1, false⟩], [⟨10, true⟩], [⟨100, 1, 10, true, 0, false⟩], 101⟩
        (fun _ => false) 1 10 false 0).2 =
      ⟨[⟨1, none, 1, false⟩], [⟨10, true⟩], [⟨100, 1, 10, true, 0, false⟩], 101⟩ := by
  decide

/-- C7 amended: provided the attribute itself is live, binding an
already-live-bound pair fails with the duplicate-binding error and leaves the
state untouched; and a soft-deleted row for the pair does not by itself cause
rejection — with no live row the bind succeeds. -/
theorem duplicate_bind_rejection (db : DB) (f : Nat → Bool) (cid aid : Nat)
    (req : Bool) (s : Int) :
    (checkAttributeExists db aid = true → checkCategoryAttributeExists db cid aid = true →
      serviceBindAttributeToCategory db f cid aid req s = (.error .alreadyBound, db)) ∧
    (checkAttributeExists db aid = true → checkCategoryAttributeExists db cid aid = false →
      ∃ db2, serviceBindAttributeToCategory db f cid aid req s =
        (.ok { id := db.nextId, categoryId := cid, attributeId := aid,
               isRequired := req, sort := s, deleted := false }, db2)) := by
  constructor
  · intro hattr hbound
    unfold serviceBindAttributeToCategory
    rw [hattr, hbound]
    simp
  · intro hattr hfree
    obtain ⟨db2, hrun, _, _⟩ := serviceBind_ok_of_checks db f cid aid req s hattr hfree
    exact ⟨db2, hrun⟩

/-- Witness for the amended C7 on `c7db`: pair (1,10) is live-bound (duplicate
rejected, state unchanged); pair (1,11) has only a soft-deleted row (bind
succeeds). -/
theorem duplicate_bind_rejection_witness :
    (serviceBindAttributeToCategory c7db (fun _ => false) 1 10 false 7 =
      (.error .alreadyBound, c7db)) ∧
    (∃ db2, serviceBindAttributeToCategory c7db (fun _ => false) 1 11 false 7 =
      (.ok { id := 102, categoryId := 1, attributeId := 11,
             isRequired := false, sort := 7, deleted := false }, db2)) :=
  ⟨(duplicate_bind_rejection c7db (fun _ => false) 1 10 false 7).1 (by decide) (by decide),
   (duplicate_bind_rejection c7db (fun _ => false) 1 11 false 7).2 (by decide) (by decide)⟩

/-- C9 is falsified by the code: the cascades run in one transaction and a
failing descendant write aborts and rolls back the whole cascade.  With
category 1 over children 2 and 3 (attribute 10 unbound anywhere), a failing
write at child 2 leaves sibling 3 without the binding, and a failing write at
child 3 erases the insert already applied at child 2; the direct operation
still succeeds in both runs. -/
theorem cascade_per_descendant_isolation_counterexample :
    (let db : DB := ⟨[⟨1, none, 1, false⟩, ⟨2, some 1, 2, false⟩, ⟨3, some 1, 2, false⟩],
       [⟨10, false⟩], [], 0⟩
     let r1 := serviceBindAttributeToCategory db (fun d => d == 2) 1 10 true 0
     let r2 := serviceBindAttributeToCategory db (fun d => d == 3) 1 10 true 0
     cascadeBindAttributeToDescendants
        (bindAttributeToCategory db 1 10 true 0) (fun d => d == 2) 1 10 true 0 =
       .error (.cascadeStep 2) ∧
     r1.1 = .ok { id := 0, categoryId := 1, attributeId := 10, isRequired := true,
                  sort := 0, deleted := false } ∧
     livePairRows r1.2 3 10 = [] ∧
     r2.1 = .ok { id := 0, categoryId := 1, attributeId := 10, isRequired := true,
                  sort := 0, deleted := false } ∧
     livePairRows r2.2 2 10 = []) := by decide

/-- C9 amended: in each of the three cascades — bind, unbind and update — a
write failure at a descendant the invocation would touch aborts the whole
cascade invocation with an error naming a failed descendant; and because each
cascade runs in a single rolled-back transaction whose error the service only
logs, the direct bind/unbind/update still succeeds and its final state is
exactly the direct mutation, with no cascade effect at all. -/
theorem cascade_abort_on_step_failure (db : DB) (f : Nat → Bool) (cid aid : Nat)
    (req : Bool) (s : Int) (r? : Option Bool) (s? : Option Int) :
    ((∃ c ∈ getAllDescendants db cid, f c = true ∧ livePairRows db c aid = []) →
      ∃ c, cascadeBindAttributeToDescendants db f cid aid req s =
        .error (.cascadeStep c) ∧ f c = true) ∧
    ((∃ c ∈ getAllDescendants db cid, f c = true ∧
        isAttributeInheritedFromParent db c aid cid = true) →
      ∃ c, cascadeUnbindAttributeFromDescendants db f cid aid =
        .error (.cascadeStep c) ∧ f c = true) ∧
    ((r?.isNone && s?.isNone) = false →
      (∃ c ∈ getAllDescendants db cid, f c = true ∧
        isAttributeInheritedFromParent db c aid cid = true) →
      ∃ c, cascadeUpdateAttributeInDescendants db f cid aid r? s? =
        .error (.cascadeStep c) ∧ f c = true) ∧
    (checkAttributeExists db aid = true → checkCategoryAttributeExists db cid aid = false →
      (∃ e, cascadeBindAttributeToDescendants (bindAttributeToCategory db cid aid req s)
        f cid aid req s = .error e) →
      serviceBindAttributeToCategory db f cid aid req s =
        (.ok { id := db.nextId, categoryId := cid, attributeId := aid,
               isRequired := req, sort := s, deleted := false },
         bindAttributeToCategory db cid aid req s)) ∧
    (checkCategoryAttributeExists db cid aid = true →
      (∃ e, cascadeUnbindAttributeFromDescendants (softDeletePair db cid aid)
        f cid aid = .error e) →
      serviceUnbindAttributeFromCategory db f cid aid =
        (.ok (), softDeletePair db cid aid)) ∧
    ((r?.isNone && s?.isNone) = false →
      checkCategoryAttributeExists db cid aid = true →
      (∃ e, cascadeUpdateAttributeInDescendants (updatePair db cid aid r? s?)
        f cid aid r? s? = .error e) →
      ∃ b, serviceUpdateCategoryAttribute db f cid aid r? s? =
        (.ok b, updatePair db cid aid r? s?)) := by
  refine ⟨?_, ?_, ?_, ?_, ?_, ?_⟩
  · intro h
    unfold cascadeBindAttributeToDescendants
    exact cascadeBindAux_error_of_fault f aid req s (getAllDescendants db cid) db h
  · intro h
    unfold cascadeUnbindAttributeFromDescendants
    exact cascadeUnbindAux_error_of_fault db f aid cid (getAllDescendants db cid) db h
  · intro hnone h
    have hnone' : ¬((r?.isNone && s?.isNone) = true) := by
      rw [hnone]
      exact Bool.false_ne_true
    unfold cascadeUpdateAttributeInDescendants
    rw [if_neg hnone']
    exact cascadeUpdateAux_error_of_fault db f aid cid r? s? (getAllDescendants db cid) db h
  · intro hattr hfree hfail
    have hnil : livePairRows db cid aid = [] :=
      (checkCategoryAttributeExists_false_iff_nil db cid aid).mp hfree
    obtain ⟨e, he⟩ := hfail
    unfold serviceBindAttributeToCategory
    rw [hattr]
    simp only [Bool.not_true, Bool.false_eq_true, if_false, hfree, he]
    have hlive1 : livePairRows (bindAttributeToCategory db cid aid req s) cid aid =
        [{ id := db.nextId, categoryId := cid, attributeId := aid,
           isRequired := req, sort := s, deleted := false }] := by
      have := (pairRows_bind_same db cid aid req s).2
      rw [hnil] at this
      simpa using this
    rw [getCategoryAttribute_of_livePair_singleton _ cid aid _ hlive1]
  · intro hcheck hfail
    obtain ⟨e, he⟩ := hfail
    unfold serviceUnbindAttributeFromCategory
    rw [hcheck]
    simp only [Bool.not_true, Bool.false_eq_true, if_false]
    unfold unbindAttributeFromCategory
    rw [if_pos hcheck]
    simp only [he]
  · intro hnone hcheck hfail
    obtain ⟨e, he⟩ := hfail
    have hnone' : ¬((r?.isNone && s?.isNone) = true) := by
      rw [hnone]
      exact Bool.false_ne_true
    have hupd : updateCategoryAttribute db cid aid r? s? =
        .ok (updatePair db cid aid r? s?) := by
      unfold updateCategoryAttribute
      rw [if_neg hnone', if_pos hcheck]
    have hmap := livePairRows_updatePair_same db cid aid r? s?
    have hneU : livePairRows (updatePair db cid aid r? s?) cid aid ≠ [] := by
      rw [hmap]
      intro hx
      have hnil := List.map_eq_nil_iff.mp hx
      rw [← checkCategoryAttributeExists_false_iff_nil] at hnil
      rw [hnil] at hcheck
      exact Bool.false_ne_true hcheck
    have hch1 : checkCategoryAttributeExists (updatePair db cid aid r? s?) cid aid
        = true := by
      rw [checkCategoryAttributeExists_iff_live]
      exact hneU
    obtain ⟨b, hb, _⟩ := getCategoryAttribute_some_of_check _ cid aid hch1
    refine ⟨b, ?_⟩
    unfold serviceUpdateCategoryAttribute
    rw [hcheck]
    simp only [Bool.not_true, Bool.false_eq_true, if_false, hupd, he, hb]

/-- Witness for the amended C9: on `c9db` (children 2 and 3 unbound, the write
at child 2 failing) for the bind cascade, and on `c2adb` (attribute 10 live at
parent 1 and child 2, the write at child 2 failing) for the unbind and update
cascades. -/
theorem cascade_abort_on_step_failure_witness :
    (∃ c, cascadeBindAttributeToDescendants c9db (fun d => d == 2) 1 10 true 0 =
      .error (.cascadeStep c) ∧ (fun d => d == 2) c = true) ∧
    (∃ c, cascadeUnbindAttributeFromDescendants c2adb (fun d => d == 2) 1 10 =
      .error (.cascadeStep c) ∧ (fun d => d == 2) c = true) ∧
    (∃ c, cascadeUpdateAttributeInDescendants c2adb (fun d => d == 2) 1 10
        (some true) none = .error (.cascadeStep c) ∧ (fun d => d == 2) c = true) ∧
    (serviceBindAttributeToCategory c9db (fun d => d == 2) 1 10 true 0 =
      (.ok { id := 0, categoryId := 1, attributeId := 10,
             isRequired := true, sort := 0, deleted := false },
       bindAttributeToCategory c9db 1 10 true 0)) ∧
    (serviceUnbindAttributeFromCategory c2adb (fun d => d == 2) 1 10 =
      (.ok (), softDeletePair c2adb 1 10)) ∧
    (∃ b, serviceUpdateCategoryAttribute c2adb (fun d => d == 2) 1 10 (some true) none =
      (.ok b, updatePair c2adb 1 10 (some true) none)) :=
  ⟨(cascade_abort_on_step_failure c9db (fun d => d == 2) 1 10 true 0
      (some true) none).1 ⟨2, by decide, by decide, by decide⟩,
   (cascade_abort_on_step_failure c2adb (fun d => d == 2) 1 10 true 0
      (some true) none).2.1 ⟨2, by decide, by decide, by decide⟩,
   (cascade_abort_on_step_failure c2adb (fun d => d == 2) 1 10 true 0
      (some true) none).2.2.1 (by decide) ⟨2, by decide, by decide, by decide⟩,
   (cascade_abort_on_step_failure c9db (fun d => d == 2) 1 10 true 0
      (some true) none).2.2.2.1 (by decide) (by decide) ⟨.cascadeStep 2, by decide⟩,
   (cascade_abort_on_step_failure c2adb (fun d => d == 2) 1 10 true 0
      (some true) none).2.2.2.2.1 (by decide) ⟨.cascadeStep 2, by decide⟩,
   (cascade_abort_on_step_failure c2adb (fun d => d == 2) 1 10 true 0
      (some true) none).2.2.2.2.2 (by decide) (by decide) ⟨.cascadeStep 2, by decide⟩⟩

/-- C5: bind/get/unbind round trip.  Starting from any state whose pair
`(cid, aid)` has no live binding (the attribute being live), a successful
service bind makes `GetAttributesByCategoryID` list exactly one binding for the
pair, carrying the submitted `isRequired` and `sort`; a subsequent successful
service unbind leaves no binding for the pair in the listing. -/
theorem bind_get_unbind_round_trip (db : DB) (cid aid : Nat) (req : Bool) (s : Int)
    (hattr : checkAttributeExists db aid = true)
    (hfree : checkCategoryAttributeExists db cid aid = false) :
    ∃ b db1 db2,
      serviceBindAttributeToCategory db (fun _ => false) cid aid req s = (.ok b, db1) ∧
      (getAttributesByCategoryID db1 cid).filter (fun x => x.attributeId == aid) =
        [{ id := db.nextId, categoryId := cid, attributeId := aid, isRequired := req,
           sort := s, deleted := false }] ∧
      serviceUnbindAttributeFromCategory db1 (fun _ => false) cid aid = (.ok (), db2) ∧
      (getAttributesByCategoryID db2 cid).filter (fun x => x.attributeId == aid) = [] := by
  obtain ⟨db1, hrun, hlive1, _⟩ :=
    serviceBind_ok_of_checks db (fun _ => false) cid aid req s hattr hfree
  have hfilter1 : (getAttributesByCategoryID db1 cid).filter
      (fun x => x.attributeId == aid) =
      [{ id := db.nextId, categoryId := cid, attributeId := aid, isRequired := req,
         sort := s, deleted := false }] := by
    have hperm := getAttributes_filter_perm db1 cid aid
    rw [hlive1] at hperm
    exact List.perm_singleton.mp hperm
  have hcheck1 : checkCategoryAttributeExists db1 cid aid = true := by
    rw [checkCategoryAttributeExists_iff_live, hlive1]
    simp
  obtain ⟨d4, hcasu⟩ : ∃ d4, cascadeUnbindAttributeFromDescendants
      (softDeletePair db1 cid aid) (fun _ => false) cid aid = .ok d4 := by
    unfold cascadeUnbindAttributeFromDescendants
    exact cascadeUnbindAux_ok_nofail _ aid cid _ _
  have hlive4 : livePairRows d4 cid aid = [] := by
    have hcasu' := hcasu
    unfold cascadeUnbindAttributeFromDescendants at hcasu'
    have hstep := cascadeUnbindAux_live (softDeletePair db1 cid aid) (fun _ => false)
      aid cid cid _ _ d4 hcasu'
    rw [hstep, livePairRows_softDeletePair_same]
    exact ite_self []
  refine ⟨_, db1, d4, hrun, hfilter1, ?_, ?_⟩
  · unfold serviceUnbindAttributeFromCategory
    rw [hcheck1]
    simp only [Bool.not_true, Bool.false_eq_true, if_false]
    unfold unbindAttributeFromCategory
    rw [if_pos hcheck1]
    simp only [hcasu]
  · have hperm := getAttributes_filter_perm d4 cid aid
    rw [hlive4] at hperm
    exact hperm.eq_nil

/-- C8: a cascade failure never fails the direct operation.  For an arbitrary
fault pattern `f` over descendant writes: a bind whose direct checks pass
returns success with the pair live-bound in the final state; an unbind of a
live pair returns success with the pair's live rows gone; an update of a live
pair returns success with the pair still live and every supplied field value
persisted at the direct category. -/
theorem cascade_failure_not_propagated (db : DB) (f : Nat → Bool) (cid aid : Nat)
    (req : Bool) (s : Int) (r? : Option Bool) (s? : Option Int) :
    (checkAttributeExists db aid = true → checkCategoryAttributeExists db cid aid = false →
      ∃ b db2, serviceBindAttributeToCategory db f cid aid req s = (.ok b, db2) ∧
        livePairRows db2 cid aid ≠ []) ∧
    (checkCategoryAttributeExists db cid aid = true →
      ∃ db2, serviceUnbindAttributeFromCategory db f cid aid = (.ok (), db2) ∧
        livePairRows db2 cid aid = []) ∧
    (checkCategoryAttributeExists db cid aid = true →
      ∃ b db2, serviceUpdateCategoryAttribute db f cid aid r? s? = (.ok b, db2) ∧
        livePairRows db2 cid aid ≠ [] ∧
        ∀ x ∈ livePairRows db2 cid aid,
          (∀ v, r? = some v → x.isRequired = v) ∧ (∀ v, s? = some v → x.sort = v)) := by
  refine ⟨?_, ?_, ?_⟩
  · intro hattr hfree
    obtain ⟨db2, hrun, hlive, _⟩ := serviceBind_ok_of_checks db f cid aid req s hattr hfree
    refine ⟨_, db2, hrun, ?_⟩
    rw [hlive]
    simp
  · intro hcheck
    unfold serviceUnbindAttributeFromCategory
    rw [hcheck]
    simp only [Bool.not_true, Bool.false_eq_true, if_false]
    unfold unbindAttributeFromCategory
    rw [if_pos hcheck]
    cases hcas : cascadeUnbindAttributeFromDescendants (softDeletePair db cid aid)
        f cid aid with
    | ok d4 =>
      refine ⟨d4, by simp only [hcas], ?_⟩
      have hcas' := hcas
      unfold cascadeUnbindAttributeFromDescendants at hcas'
      have hstep := cascadeUnbindAux_live (softDeletePair db cid aid) f aid cid cid
        _ _ d4 hcas'
      rw [hstep, livePairRows_softDeletePair_same]
      exact ite_self []
    | error e =>
      exact ⟨softDeletePair db cid aid, by simp only [hcas],
        livePairRows_softDeletePair_same db cid aid⟩
  · intro hcheck
    have hP : ∀ b : CategoryAttribute,
        (∀ v, r? = some v → (updateFields r? s? b).isRequired = v) ∧
        (∀ v, s? = some v → (updateFields r? s? b).sort = v) := by
      intro b
      constructor
      · intro v hv
        simp [updateFields, hv]
      · intro v hv
        simp [updateFields, hv]
    by_cases hnone : (r?.isNone && s?.isNone) = true
    · obtain ⟨hr, hs⟩ : r? = none ∧ s? = none := by
        obtain ⟨h1, h2⟩ := (Bool.and_eq_true _ _).mp hnone
        exact ⟨Option.isNone_iff_eq_none.mp h1, Option.isNone_iff_eq_none.mp h2⟩
      have hupd : updateCategoryAttribute db cid aid r? s? = .ok db := by
        unfold updateCategoryAttribute
        rw [if_pos hnone]
      have hcasc : cascadeUpdateAttributeInDescendants db f cid aid r? s? = .ok db := by
        unfold cascadeUpdateAttributeInDescendants
        rw [if_pos hnone]
      obtain ⟨b, hb, _⟩ := getCategoryAttribute_some_of_check db cid aid hcheck
      refine ⟨b, db, ?_, ?_, ?_⟩
      · unfold serviceUpdateCategoryAttribute
        rw [hcheck]
        simp only [Bool.not_true, Bool.false_eq_true, if_false, hupd, hcasc, hb]
      · rw [← checkCategoryAttributeExists_iff_live]
        exact hcheck
      · intro x _
        constructor
        · intro v hv
          rw [hr] at hv
          exact Option.noConfusion hv
        · intro v hv
          rw [hs] at hv
          exact Option.noConfusion hv
    · have hupd : updateCategoryAttribute db cid aid r? s? =
          .ok (updatePair db cid aid r? s?) := by
        unfold updateCategoryAttribute
        rw [if_neg hnone, if_pos hcheck]
      have hmap := livePairRows_updatePair_same db cid aid r? s?
      have hneU : livePairRows (updatePair db cid aid r? s?) cid aid ≠ [] := by
        rw [hmap]
        intro hx
        have hnil := List.map_eq_nil_iff.mp hx
        rw [← checkCategoryAttributeExists_false_iff_nil] at hnil
        rw [hnil] at hcheck
        exact Bool.false_ne_true hcheck
      have hPall : ∀ x ∈ livePairRows (updatePair db cid aid r? s?) cid aid,
          (∀ v, r? = some v → x.isRequired = v) ∧ (∀ v, s? = some v → x.sort = v) := by
        rw [hmap]
        intro x hx
        obtain ⟨b0, _, hb0⟩ := List.mem_map.mp hx
        rw [← hb0]
        exact hP b0
      cases hcas : cascadeUpdateAttributeInDescendants (updatePair db cid aid r? s?)
          f cid aid r? s? with
      | ok d4 =>
        have hcas' := hcas
        unfold cascadeUpdateAttributeInDescendants at hcas'
        rw [if_neg hnone] at hcas'
        obtain ⟨hne4, hall4⟩ := cascadeUpdateAux_inv (updatePair db cid aid r? s?) f aid cid
          r? s? cid _ hP _ _ d4 hcas' hneU hPall
        have hch4 : checkCategoryAttributeExists d4 cid aid = true := by
          rw [checkCategoryAttributeExists_iff_live]
          exact hne4
        obtain ⟨b, hb, _⟩ := getCategoryAttribute_some_of_check d4 cid aid hch4
        refine ⟨b, d4, ?_, hne4, hall4⟩
        unfold serviceUpdateCategoryAttribute
        rw [hcheck]
        simp only [Bool.not_true, Bool.false_eq_true, if_false, hupd, hcas, hb]
      | error e =>
        have hch1 : checkCategoryAttributeExists (updatePair db cid aid r? s?) cid aid
            = true := by
          rw [checkCategoryAttributeExists_iff_live]
          exact hneU
        obtain ⟨b, hb, _⟩ := getCategoryAttribute_some_of_check _ cid aid hch1
        refine ⟨b, updatePair db cid aid r? s?, ?_, hneU, hPall⟩
        unfold serviceUpdateCategoryAttribute
        rw [hcheck]
        simp only [Bool.not_true, Bool.false_eq_true, if_false, hupd, hcas, hb]

/-- Witness for C5 on `c5db`. -/
theorem bind_get_unbind_round_trip_witness :
    ∃ b db1 db2,
      serviceBindAttributeToCategory c5db (fun _ => false) 1 10 true 3 = (.ok b, db1) ∧
      (getAttributesByCategoryID db1 1).filter (fun x => x.attributeId == 10) =
        [{ id := 0, categoryId := 1, attributeId := 10, isRequired := true,
           sort := 3, deleted := false }] ∧
      serviceUnbindAttributeFromCategory db1 (fun _ => false) 1 10 = (.ok (), db2) ∧
      (getAttributesByCategoryID db2 1).filter (fun x => x.attributeId == 10) = [] :=
  bind_get_unbind_round_trip c5db 1 10 true 3 (by decide) (by decide)

/-- Witness for C8 on `c8db` with every cascade write failing. -/
theorem cascade_failure_not_propagated_witness :
    (∃ b db2, serviceBindAttributeToCategory c8db (fun _ => true) 1 11 true 2 =
        (.ok b, db2) ∧ livePairRows db2 1 11 ≠ []) ∧
    (∃ db2, serviceUnbindAttributeFromCategory c8db (fun _ => true) 1 10 =
        (.ok (), db2) ∧ livePairRows db2 1 10 = []) ∧
    (∃ b db2, serviceUpdateCategoryAttribute c8db (fun _ => true) 1 10
        (some false) (some 5) = (.ok b, db2) ∧
      livePairRows db2 1 10 ≠ [] ∧
      ∀ x ∈ livePairRows db2 1 10,
        (∀ v, some false = some v → x.isRequired = v) ∧
        (∀ v, some (5 : Int) = some v → x.sort = v)) :=
  ⟨(cascade_failure_not_propagated c8db (fun _ => true) 1 11 true 2
      (some false) (some 5)).1 (by decide) (by decide),
   (cascade_failure_not_propagated c8db (fun _ => true) 1 10 true 2
      (some false) (some 5)).2.1 (by decide),
   (cascade_failure_not_propagated c8db (fun _ => true) 1 10 true 2
      (some false) (some 5)).2.2 (by decide)⟩

/-- C6: the batch bind is all-or-nothing.  If any entry's attribute is not live
or is already live-bound to the category, the whole call errors with the state
returned unchanged (validation precedes any write); if every entry is valid
and unbound, the call succeeds and every entry is persisted as a live binding
with its submitted values. -/
theorem batch_bind_all_or_nothing (db : DB) (f : Nat → Bool) (cid : Nat)
    (reqs : List CategoryAttributeBindRequest) :
    ((∃ r ∈ reqs, checkAttributeExists db r.attributeId = false ∨
        checkCategoryAttributeExists db cid r.attributeId = true) →
      ∃ e, serviceBatchBindAttributesToCategory db f cid reqs = (.error e, db)) ∧
    ((∀ r ∈ reqs, checkAttributeExists db r.attributeId = true ∧
        checkCategoryAttributeExists db cid r.attributeId = false) →
      ∃ db2, serviceBatchBindAttributesToCategory db f cid reqs = (.ok (), db2) ∧
        ∀ r ∈ reqs, ∃ b ∈ db2.bindings,
          b.categoryId = cid ∧ b.attributeId = r.attributeId ∧
          b.isRequired = r.isRequired ∧ b.sort = r.sort ∧ b.deleted = false) := by
  constructor
  · intro h
    obtain ⟨e, he⟩ := validateBatch_some_of_bad db cid reqs 0 h
    refine ⟨e, ?_⟩
    unfold serviceBatchBindAttributesToCategory
    rw [he]
  · intro h
    have hnone := validateBatch_none_of_good db cid reqs 0 h
    refine ⟨reqs.foldl (fun d r =>
        match cascadeBindAttributeToDescendants d f cid r.attributeId
            r.isRequired r.sort with
        | .ok dd => dd
        | .error _ => d) (batchBindAttributesToCategory db cid reqs), ?_, ?_⟩
    · unfold serviceBatchBindAttributesToCategory
      rw [hnone]
    · intro r hr
      obtain ⟨b, hb, hprops⟩ := batchBind_inserts cid reqs db r hr
      exact ⟨b, cascadeFold_mem_mono f cid reqs _ b hb, hprops⟩

/-- Witness for C6 on `c6db`: a batch naming already-bound attribute 12 is
rejected wholesale; a batch of the unbound attributes 10 and 11 lands both. -/
theorem batch_bind_all_or_nothing_witness :
    (∃ e, serviceBatchBindAttributesToCategory c6db (fun _ => false) 1
        [⟨10, true, 1⟩, ⟨12, false, 2⟩] = (.error e, c6db)) ∧
    (∃ db2, serviceBatchBindAttributesToCategory c6db (fun _ => false) 1
        [⟨10, true, 1⟩, ⟨11, false, 2⟩] = (.ok (), db2) ∧
      ∀ r ∈ ([⟨10, true, 1⟩, ⟨11, false, 2⟩] : List CategoryAttributeBindRequest),
        ∃ b ∈ db2.bindings,
          b.categoryId = 1 ∧ b.attributeId = r.attributeId ∧
          b.isRequired = r.isRequired ∧ b.sort = r.sort ∧ b.deleted = false) :=
  ⟨(batch_bind_all_or_nothing c6db (fun _ => false) 1
      [⟨10, true, 1⟩, ⟨12, false, 2⟩]).1 (by decide),
   (batch_bind_all_or_nothing c6db (fun _ => false) 1
      [⟨10, true, 1⟩, ⟨11, false, 2⟩]).2 (by decide)⟩

/-- C1: closest-wins resolution.  In the three-level chain A(1,root) → B(2) →
C(3) with attribute 10 bound at A (`required = false`, any sort, any row id)
and at B (`required = true`, any sort, any row id),
`Service.GetCategoryAttributesWithInheritance(C)` reports exactly one entry
for the attribute: B's values with `isRequired = true`, `isInherited = true`
and `inheritedFrom = B` — the binding closest to the target wins. -/
theorem closest_wins_resolution (s1 s2 : Int) (i1 i2 : Nat) :
    (serviceGetCategoryAttributesWithInheritance
      ⟨[⟨1, none, 1, false⟩, ⟨2, some 1, 2, false⟩, ⟨3, some 2, 3, false⟩],
       [⟨10, false⟩],
       [⟨i1, 1, 10, false, s1, false⟩, ⟨i2, 2, 10, true, s2, false⟩], 102⟩ 3).filter
      (fun r => r.attributeId == 10) =
      [{ bindingId := i2, categoryId := 2, attributeId := 10, isRequired := true,
         sort := s2, isInherited := true, inheritedFrom := some 2 }] := rfl

/-! ## Merge-loop lemmas (toward the rebuild idempotence claim) -/

theorem mem_replaceForAttribute (r : CategoryAttribute) :
    ∀ (l : List CategoryAttribute) (b : CategoryAttribute),
      b ∈ replaceForAttribute r l → b = r ∨ b ∈ l := by
  intro l
  induction l with
  | nil =>
    intro b hb
    simp [replaceForAttribute] at hb
  | cons x xs ih =>
    intro b hb
    unfold replaceForAttribute at hb
    by_cases hx : (x.attributeId == r.attributeId) = true
    · rw [if_pos hx] at hb
      rcases List.mem_cons.mp hb with he | hm
      · exact Or.inl he
      · exact Or.inr (List.mem_cons_of_mem x hm)
    · rw [if_neg hx] at hb
      rcases List.mem_cons.mp hb with he | hm
      · exact Or.inr (he ▸ List.mem_cons_self x xs)
      · rcases ih b hm with h | h
        · exact Or.inl h
        · exact Or.inr (List.mem_cons_of_mem x h)

theorem attrIds_replaceForAttribute (r : CategoryAttribute) :
    ∀ l : List CategoryAttribute,
      (replaceForAttribute r l).map (fun b => b.attributeId) =
        l.map (fun b => b.attributeId) := by
  intro l
  induction l with
  | nil => rfl
  | cons x xs ih =>
    unfold replaceForAttribute
    by_cases hx : (x.attributeId == r.attributeId) = true
    · rw [if_pos hx]
      simp only [List.map_cons]
      rw [beq_iff_eq] at hx
      rw [hx]
    · rw [if_neg hx]
      simp only [List.map_cons, ih]

theorem replace_target_of_nodup (cid x : Nat) (r : CategoryAttribute)
    (hrx : r.attributeId = x) (hrc : r.categoryId = cid) :
    ∀ l : List CategoryAttribute, (l.map (fun b => b.attributeId)).Nodup →
      ∀ b ∈ replaceForAttribute r l, b.attributeId = x → b.categoryId = cid := by
  intro l
  induction l with
  | nil =>
    intro _ b hb
    simp [replaceForAttribute] at hb
  | cons y ys ih =>
    intro hnd b hb hbx
    have hnd' : (y.attributeId ∉ ys.map (fun b => b.attributeId)) ∧
        (ys.map (fun b => b.attributeId)).Nodup := by
      rw [List.map_cons] at hnd
      exact List.nodup_cons.mp hnd
    unfold replaceForAttribute at hb
    by_cases hy : (y.attributeId == r.attributeId) = true
    · rw [if_pos hy] at hb
      rcases List.mem_cons.mp hb with rfl | hm
      · exact hrc
      · exfalso
        have hyx : y.attributeId = x := (beq_iff_eq.mp hy).trans hrx
        have hxmem : x ∈ ys.map (fun b => b.attributeId) := List.mem_map.mpr ⟨b, hm, hbx⟩
        rw [hyx] at hnd'
        exact hnd'.1 hxmem
    · rw [if_neg hy] at hb
      rcases List.mem_cons.mp hb with rfl | hm
      · exfalso
        apply hy
        rw [beq_iff_eq, hbx, hrx]
      · exact ih hnd'.2 b hm hbx

theorem mergeRows_sub (cid : Nat) :
    ∀ (rs : List (Int × CategoryAttribute)) (seen : List Nat)
      (out : List CategoryAttribute) (b : CategoryAttribute),
      b ∈ mergeRows cid rs seen out → b ∈ out ∨ ∃ x ∈ rs, b = x.2 := by
  intro rs
  induction rs with
  | nil =>
    intro seen out b hb
    unfold mergeRows at hb
    exact Or.inl hb
  | cons r rest ih =>
    intro seen out b hb
    unfold mergeRows at hb
    by_cases hc : (seen.contains r.2.attributeId) = true
    · rw [if_pos hc] at hb
      by_cases hcid : (r.2.categoryId == cid) = true
      · rw [if_pos hcid] at hb
        rcases ih seen _ b hb with h | ⟨y, hy, hye⟩
        · rcases mem_replaceForAttribute r.2 out b h with he | hm
          · exact Or.inr ⟨r, List.mem_cons_self r rest, he⟩
          · exact Or.inl hm
        · exact Or.inr ⟨y, List.mem_cons_of_mem r hy, hye⟩
      · rw [if_neg hcid] at hb
        rcases ih seen out b hb with h | ⟨y, hy, hye⟩
        · exact Or.inl h
        · exact Or.inr ⟨y, List.mem_cons_of_mem r hy, hye⟩
    · rw [if_neg hc] at hb
      rcases ih _ _ b hb with h | ⟨y, hy, hye⟩
      · rcases List.mem_append.mp h with hm | hm
        · exact Or.inl hm
        · exact Or.inr ⟨r, List.mem_cons_self r rest, List.mem_singleton.mp hm⟩
      · exact Or.inr ⟨y, List.mem_cons_of_mem r hy, hye⟩

theorem mergeRows_keeps_attr (cid x : Nat) :
    ∀ (rs : List (Int × CategoryAttribute)) (seen : List Nat)
      (out : List CategoryAttribute),
      (∃ b ∈ out, b.attributeId = x) →
      ∃ b ∈ mergeRows cid rs seen out, b.attributeId = x := by
  intro rs
  induction rs with
  | nil =>
    intro seen out h
    unfold mergeRows
    exact h
  | cons r rest ih =>
    intro seen out h
    unfold mergeRows
    by_cases hc : (seen.contains r.2.attributeId) = true
    · rw [if_pos hc]
      by_cases hcid : (r.2.categoryId == cid) = true
      · rw [if_pos hcid]
        apply ih
        obtain ⟨b, hb, hbx⟩ := h
        have : x ∈ (replaceForAttribute r.2 out).map (fun b => b.attributeId) := by
          rw [attrIds_replaceForAttribute]
          exact List.mem_map.mpr ⟨b, hb, hbx⟩
        obtain ⟨b2, hb2, hb2x⟩ := List.mem_map.mp this
        exact ⟨b2, hb2, hb2x⟩
      · rw [if_neg hcid]
        exact ih seen out h
    · rw [if_neg hc]
      apply ih
      obtain ⟨b, hb, hbx⟩ := h
      exact ⟨b, List.mem_append_left _ hb, hbx⟩

theorem mergeRows_attr_mem (cid x : Nat) :
    ∀ (rs : List (Int × CategoryAttribute)) (seen : List Nat)
      (out : List CategoryAttribute),
      (seen.contains x) = false →
      (∃ r ∈ rs, r.2.attributeId = x) →
      ∃ b ∈ mergeRows cid rs seen out, b.attributeId = x := by
  intro rs
  induction rs with
  | nil =>
    intro seen out _ h
    obtain ⟨r, hr, _⟩ := h
    exact absurd hr (List.not_mem_nil r)
  | cons r rest ih =>
    intro seen out hseen h
    unfold mergeRows
    by_cases hrx : r.2.attributeId = x
    · have hc : (seen.contains r.2.attributeId) = false := by
        rw [hrx]
        exact hseen
      have hc2 : ¬((seen.contains r.2.attributeId) = true) := by
        rw [hc]
        exact Bool.false_ne_true
      rw [if_neg hc2]
      apply mergeRows_keeps_attr
      exact ⟨r.2, List.mem_append_right _ (List.mem_singleton_self _), hrx⟩
    · have hrest : ∃ y ∈ rest, y.2.attributeId = x := by
        obtain ⟨y, hy, hyx⟩ := h
        rcases List.mem_cons.mp hy with he | hm
        · exact absurd (he ▸ hyx) hrx
        · exact ⟨y, hm, hyx⟩
      by_cases hc : (seen.contains r.2.attributeId) = true
      · rw [if_pos hc]
        by_cases hcid : (r.2.categoryId == cid) = true
        · rw [if_pos hcid]
          exact ih seen _ hseen hrest
        · rw [if_neg hcid]
          exact ih seen out hseen hrest
      · rw [if_neg hc]
        refine ih _ _ ?_ hrest
        simp only [List.contains_cons, Bool.or_eq_false_iff]
        refine ⟨?_, hseen⟩
        rw [beq_eq_false_iff_ne]
        exact fun he => hrx he.symm

theorem mergeRows_keep_target (cid x : Nat) :
    ∀ (rs : List (Int × CategoryAttribute)) (seen : List Nat)
      (out : List CategoryAttribute),
      (seen.contains x) = true →
      (∀ b ∈ out, b.attributeId = x → b.categoryId = cid) →
      ((out.map fun b => b.attributeId).Nodup) →
      (∀ a ∈ out.map (fun b => b.attributeId), seen.contains a = true) →
      ∀ b ∈ mergeRows cid rs seen out, b.attributeId = x → b.categoryId = cid := by
  intro rs
  induction rs with
  | nil =>
    intro seen out _ hout _ _ b hb
    unfold mergeRows at hb
    exact hout b hb
  | cons r rest ih =>
    intro seen out hseen hout hnd hsub b hb
    unfold mergeRows at hb
    by_cases hc : (seen.contains r.2.attributeId) = true
    · rw [if_pos hc] at hb
      by_cases hcid : (r.2.categoryId == cid) = true
      · rw [if_pos hcid] at hb
        refine ih seen _ hseen ?_ ?_ ?_ b hb
        · by_cases hrx : r.2.attributeId = x
          · exact replace_target_of_nodup cid x r.2 hrx (beq_iff_eq.mp hcid) out hnd
          · intro b2 hb2 hb2x
            rcases mem_replaceForAttribute r.2 out b2 hb2 with rfl | hm
            · exact absurd hb2x hrx
            · exact hout b2 hm hb2x
        · rw [attrIds_replaceForAttribute]
          exact hnd
        · rw [attrIds_replaceForAttribute]
          exact hsub
      · rw [if_neg hcid] at hb
        exact ih seen out hseen hout hnd hsub b hb
    · rw [if_neg hc] at hb
      have hrx : r.2.attributeId ≠ x := by
        intro he
        rw [he, hseen] at hc
        exact hc rfl
      refine ih _ _ ?_ ?_ ?_ ?_ b hb
      · simp only [List.contains_cons, Bool.or_eq_true_iff]
        exact Or.inr hseen
      · intro b2 hb2 hb2x
        rcases List.mem_append.mp hb2 with hm | hm
        · exact hout b2 hm hb2x
        · exact absurd ((List.mem_singleton.mp hm) ▸ hb2x) hrx
      · rw [List.map_append]
        rw [List.nodup_append]
        refine ⟨hnd, List.nodup_singleton _, ?_⟩
        intro a ha hamem
        have := hsub a ha
        simp only [List.map_cons, List.map_nil, List.mem_singleton] at hamem
        rw [hamem] at this
        rw [this] at hc
        exact hc rfl
      · intro a ha
        rw [List.map_append, List.mem_append] at ha
        simp only [List.contains_cons, Bool.or_eq_true_iff]
        rcases ha with hm | hm
        · exact Or.inr (hsub a hm)
        · simp only [List.map_cons, List.map_nil, List.mem_singleton] at hm
          rw [hm]
          simp

theorem mergeRows_target_wins (cid x : Nat) :
    ∀ (rs : List (Int × CategoryAttribute)) (seen : List Nat)
      (out : List CategoryAttribute),
      (∀ a ∈ out.map (fun b => b.attributeId), seen.contains a = true) →
      ((out.map fun b => b.attributeId).Nodup) →
      (∃ r ∈ rs, r.2.attributeId = x ∧ r.2.categoryId = cid) →
      ∀ b ∈ mergeRows cid rs seen out, b.attributeId = x → b.categoryId = cid := by
  intro rs
  induction rs with
  | nil =>
    intro seen out _ _ hwit
    obtain ⟨r, hr, _⟩ := hwit
    exact absurd hr (List.not_mem_nil r)
  | cons r rest ih =>
    intro seen out hsub hnd hwit b hb
    unfold mergeRows at hb
    by_cases hwr : r.2.attributeId = x ∧ r.2.categoryId = cid
    · -- the winning target row arrives now
      by_cases hc : (seen.contains r.2.attributeId) = true
      · rw [if_pos hc] at hb
        have hcid : (r.2.categoryId == cid) = true := by
          rw [beq_iff_eq]
          exact hwr.2
        rw [if_pos hcid] at hb
        refine mergeRows_keep_target cid x rest seen _ ?_ ?_ ?_ ?_ b hb
        · rw [← hwr.1]
          exact hc
        · exact replace_target_of_nodup cid x r.2 hwr.1 hwr.2 out hnd
        · rw [attrIds_replaceForAttribute]
          exact hnd
        · rw [attrIds_replaceForAttribute]
          exact hsub
      · rw [if_neg hc] at hb
        refine mergeRows_keep_target cid x rest _ _ ?_ ?_ ?_ ?_ b hb
        · simp only [List.contains_cons, Bool.or_eq_true_iff]
          left
          rw [beq_iff_eq]
          exact hwr.1.symm
        · intro b2 hb2 hb2x
          rcases List.mem_append.mp hb2 with hm | hm
          · exfalso
            have hx1 : x ∈ out.map (fun b => b.attributeId) := List.mem_map.mpr ⟨b2, hm, hb2x⟩
            have hx2 := hsub x hx1
            rw [← hwr.1] at hx2
            rw [hx2] at hc
            exact hc rfl
          · rw [List.mem_singleton.mp hm]
            exact hwr.2
        · rw [List.map_append, List.nodup_append]
          refine ⟨hnd, List.nodup_singleton _, ?_⟩
          intro a ha hamem
          have hsa := hsub a ha
          simp only [List.map_cons, List.map_nil, List.mem_singleton] at hamem
          rw [hamem] at hsa
          rw [hsa] at hc
          exact hc rfl
        · intro a ha
          rw [List.map_append, List.mem_append] at ha
          simp only [List.contains_cons, Bool.or_eq_true_iff]
          rcases ha with hm | hm
          · exact Or.inr (hsub a hm)
          · simp only [List.map_cons, List.map_nil, List.mem_singleton] at hm
            rw [hm]
            simp
    · -- the witness sits in the tail
      have hwit2 : ∃ y ∈ rest, y.2.attributeId = x ∧ y.2.categoryId = cid := by
        obtain ⟨y, hy, hyp⟩ := hwit
        rcases List.mem_cons.mp hy with he | hm
        · exact absurd (he ▸ hyp) hwr
        · exact ⟨y, hm, hyp⟩
      by_cases hc : (seen.contains r.2.attributeId) = true
      · rw [if_pos hc] at hb
        by_cases hcid : (r.2.categoryId == cid) = true
        · rw [if_pos hcid] at hb
          refine ih seen _ ?_ ?_ hwit2 b hb
          · rw [attrIds_replaceForAttribute]
            exact hsub
          · rw [attrIds_replaceForAttribute]
            exact hnd
        · rw [if_neg hcid] at hb
          exact ih seen out hsub hnd hwit2 b hb
      · rw [if_neg hc] at hb
        refine ih _ _ ?_ ?_ hwit2 b hb
        · intro a ha
          rw [List.map_append, List.mem_append] at ha
          simp only [List.contains_cons, Bool.or_eq_true_iff]
          rcases ha with hm | hm
          · exact Or.inr (hsub a hm)
          · simp only [List.map_cons, List.map_nil, List.mem_singleton] at hm
            rw [hm]
            simp
        · rw [List.map_append, List.nodup_append]
          refine ⟨hnd, List.nodup_singleton _, ?_⟩
          intro a ha hamem
          have hsa := hsub a ha
          simp only [List.map_cons, List.map_nil, List.mem_singleton] at hamem
          rw [hamem] at hsa
          rw [hsa] at hc
          exact hc rfl

/-! ## Join-row characterization and congruence lemmas -/

theorem mem_inheritanceJoinRows (db : DB) (cid : Nat) (x : Int × CategoryAttribute) :
    x ∈ inheritanceJoinRows db cid ↔
      ∃ c ∈ categoryPath db cid, x.1 = c.level ∧ x.2.categoryId = c.id ∧
        x.2 ∈ db.bindings ∧ x.2.deleted = false ∧
        checkAttributeExists db x.2.attributeId = true := by
  unfold inheritanceJoinRows
  generalize categoryPath db cid = p
  induction p with
  | nil => simp
  | cons c cs ih =>
    simp only [List.foldr_cons, List.mem_append, ih, List.mem_cons]
    constructor
    · rintro (hm | ⟨c2, hc2, hrest⟩)
      · obtain ⟨b, hb, hbx⟩ := List.mem_map.mp hm
        subst hbx
        obtain ⟨hbmem, hbp⟩ := List.mem_filter.mp hb
        have hsplit := (Bool.and_eq_true _ _).mp hbp
        have hsplit2 := (Bool.and_eq_true _ _).mp hsplit.1
        refine ⟨c, Or.inl rfl, rfl, beq_iff_eq.mp hsplit2.1, hbmem, ?_, hsplit.2⟩
        simpa using hsplit2.2
      · exact ⟨c2, Or.inr hc2, hrest⟩
    · rintro ⟨c2, hc2 | hc2, hlev, hcat, hmem, hdel, hattr⟩
      · left
        subst hc2
        refine List.mem_map.mpr ⟨x.2, ?_, ?_⟩
        · refine List.mem_filter.mpr ⟨hmem, ?_⟩
          rw [Bool.and_eq_true, Bool.and_eq_true]
          refine ⟨⟨beq_iff_eq.mpr hcat, ?_⟩, hattr⟩
          rw [hdel]
          rfl
        · rw [← hlev]
      · exact Or.inr ⟨c2, hc2, hlev, hcat, hmem, hdel, hattr⟩

theorem findLiveCategory_congr (d1 d2 : DB) (h : d1.categories = d2.categories)
    (cid : Nat) : findLiveCategory d1 cid = findLiveCategory d2 cid := by
  unfold findLiveCategory
  rw [h]

theorem pathToRoot_congr (d1 d2 : DB) (h : d1.categories = d2.categories) :
    ∀ (fuel cid : Nat), pathToRoot d1 fuel cid = pathToRoot d2 fuel cid := by
  intro fuel
  induction fuel with
  | zero => intro _; rfl
  | succ n ih =>
    intro cid
    unfold pathToRoot
    rw [findLiveCategory_congr d1 d2 h]
    cases findLiveCategory d2 cid with
    | none => rfl
    | some c =>
      simp only []
      cases c.parentId with
      | none => rfl
      | some p =>
        simp only []
        rw [ih p]

theorem categoryPath_congr (d1 d2 : DB) (h : d1.categories = d2.categories)
    (cid : Nat) : categoryPath d1 cid = categoryPath d2 cid := by
  unfold categoryPath
  rw [h, pathToRoot_congr d1 d2 h]

theorem checkAttributeExists_congr (d1 d2 : DB) (h : d1.attributes = d2.attributes)
    (aid : Nat) : checkAttributeExists d1 aid = checkAttributeExists d2 aid := by
  unfold checkAttributeExists
  rw [h]

/-! ## Rebuild-fold lemmas -/

theorem contains_ownAttributeIds_iff (db : DB) (cid X : Nat) :
    ((ownAttributeIds db cid).contains X) = true ↔
      checkCategoryAttributeExists db cid X = true := by
  unfold ownAttributeIds
  rw [checkCategoryAttributeExists_iff_exists]
  rw [List.contains_iff_exists_mem_beq]
  constructor
  · rintro ⟨a, ha, hbeq⟩
    obtain ⟨b, hb, hba⟩ := List.mem_map.mp ha
    obtain ⟨hbmem, hbp⟩ := List.mem_filter.mp hb
    have hsplit := (Bool.and_eq_true _ _).mp hbp
    refine ⟨b, hbmem, beq_iff_eq.mp hsplit.1, ?_, ?_⟩
    · rw [hba]
      exact (beq_iff_eq.mp hbeq).symm
    · have := hsplit.2
      cases hd : b.deleted
      · rfl
      · rw [hd] at this
        exact absurd this (by simp)
  · rintro ⟨b, hb, hc, ha, hd⟩
    refine ⟨b.attributeId, ?_, ?_⟩
    · refine List.mem_map.mpr ⟨b, ?_, rfl⟩
      refine List.mem_filter.mpr ⟨hb, ?_⟩
      rw [Bool.and_eq_true]
      refine ⟨beq_iff_eq.mpr hc, ?_⟩
      rw [hd]
      rfl
    · exact beq_iff_eq.mpr ha.symm

theorem rebuild_foldl_structure (cid : Nat) (own : List Nat) :
    ∀ (l : List CategoryAttribute) (d : DB),
      ∃ extra, (l.foldl (rebuildStep cid own) d).bindings = d.bindings ++ extra ∧
        (∀ b ∈ extra, b.categoryId = cid ∧ b.deleted = false) ∧
        (l.foldl (rebuildStep cid own) d).categories = d.categories ∧
        (l.foldl (rebuildStep cid own) d).attributes = d.attributes := by
  intro l
  induction l with
  | nil =>
    intro d
    refine ⟨[], by simp, ?_, rfl, rfl⟩
    intro b hb
    exact absurd hb (List.not_mem_nil b)
  | cons ia rest ih =>
    intro d
    rw [List.foldl_cons]
    by_cases hcond : (ia.categoryId != cid && !(own.contains ia.attributeId)) = true
    · by_cases hchk : checkCategoryAttributeExists d cid ia.attributeId = true
      · have hstep : rebuildStep cid own d ia = d := by
          unfold rebuildStep
          rw [if_pos hcond, if_pos hchk]
        rw [hstep]
        exact ih d
      · have hstep : rebuildStep cid own d ia =
            bindAttributeToCategory d cid ia.attributeId ia.isRequired ia.sort := by
          unfold rebuildStep
          rw [if_pos hcond, if_neg hchk]
        rw [hstep]
        obtain ⟨extra, h1, h2, h3, h4⟩ :=
          ih (bindAttributeToCategory d cid ia.attributeId ia.isRequired ia.sort)
        refine ⟨{ id := d.nextId, categoryId := cid, attributeId := ia.attributeId,
                  isRequired := ia.isRequired, sort := ia.sort, deleted := false } :: extra,
          ?_, ?_, ?_, ?_⟩
        · rw [h1, bindAttributeToCategory_bindings]
          simp
        · intro b hb
          rcases List.mem_cons.mp hb with rfl | hm
          · exact ⟨rfl, rfl⟩
          · exact h2 b hm
        · rw [h3]
          rfl
        · rw [h4]
          rfl
    · have hstep : rebuildStep cid own d ia = d := by
        unfold rebuildStep
        rw [if_neg hcond]
      rw [hstep]
      exact ih d

theorem rebuild_foldl_check_mono (cid : Nat) (own : List Nat) (X : Nat) :
    ∀ (l : List CategoryAttribute) (d : DB),
      checkCategoryAttributeExists d cid X = true →
      checkCategoryAttributeExists (l.foldl (rebuildStep cid own) d) cid X = true := by
  intro l d h
  obtain ⟨extra, h1, _, _, _⟩ := rebuild_foldl_structure cid own l d
  refine checkCategoryAttributeExists_mono d _ ?_ cid X h
  intro b hb
  rw [h1]
  exact List.mem_append_left _ hb

theorem rebuild_foldl_inserted (cid : Nat) (own : List Nat) :
    ∀ (l : List CategoryAttribute) (d : DB) (e : CategoryAttribute),
      e ∈ l → e.categoryId ≠ cid → (own.contains e.attributeId) = false →
      checkCategoryAttributeExists (l.foldl (rebuildStep cid own) d) cid
        e.attributeId = true := by
  intro l
  induction l with
  | nil =>
    intro d e he
    exact absurd he (List.not_mem_nil e)
  | cons ia rest ih =>
    intro d e he hne hown
    rw [List.foldl_cons]
    rcases List.mem_cons.mp he with rfl | hm
    · -- the entry itself is processed now
      have hcond : (e.categoryId != cid && !(own.contains e.attributeId)) = true := by
        rw [Bool.and_eq_true]
        constructor
        · exact bne_iff_ne.mpr hne
        · rw [hown]
          rfl
      by_cases hchk : checkCategoryAttributeExists d cid e.attributeId = true
      · have hstep : rebuildStep cid own d e = d := by
          unfold rebuildStep
          rw [if_pos hcond, if_pos hchk]
        rw [hstep]
        exact rebuild_foldl_check_mono cid own e.attributeId rest d hchk
      · have hstep : rebuildStep cid own d e =
            bindAttributeToCategory d cid e.attributeId e.isRequired e.sort := by
          unfold rebuildStep
          rw [if_pos hcond, if_neg hchk]
        rw [hstep]
        refine rebuild_foldl_check_mono cid own e.attributeId rest _ ?_
        rw [checkCategoryAttributeExists_iff_exists]
        refine ⟨{ id := d.nextId, categoryId := cid, attributeId := e.attributeId,
                  isRequired := e.isRequired, sort := e.sort, deleted := false }, ?_,
          rfl, rfl, rfl⟩
        rw [bindAttributeToCategory_bindings]
        exact List.mem_append_right _ (List.mem_singleton_self _)
    · exact ih (rebuildStep cid own d ia) e hm hne hown

/-- C4: idempotent rebuild.  For every state and every category id, running
`RebuildInheritanceForCategory` twice is the same as running it once — the
second run inserts nothing and returns the state unchanged — and
`ValidateInheritanceConsistency` answers identically after either run.  The
argument: any entry of the second run's resolved set owned by an ancestor
either was already materialized at the target before the first run, or was
inserted by it, so every second-run step is a no-op. -/
theorem rebuild_idempotent (db : DB) (cid : Nat) :
    rebuildInheritanceForCategory (rebuildInheritanceForCategory db cid) cid =
      rebuildInheritanceForCategory db cid ∧
    validateInheritanceConsistency
        (rebuildInheritanceForCategory (rebuildInheritanceForCategory db cid) cid) cid =
      validateInheritanceConsistency (rebuildInheritanceForCategory db cid) cid := by
  obtain ⟨extra, hbind1, hextra, hcats1, hattrs1⟩ :=
    rebuild_foldl_structure cid (ownAttributeIds db cid)
      (getCategoryAttributesWithInheritance db cid) db
  set db1 := rebuildInheritanceForCategory db cid with hdb1
  have hbind1' : db1.bindings = db.bindings ++ extra := hbind1
  have hcats1' : db1.categories = db.categories := hcats1
  have hattrs1' : db1.attributes = db.attributes := hattrs1
  have hkey : ∀ ia ∈ getCategoryAttributesWithInheritance db1 cid,
      rebuildStep cid (ownAttributeIds db1 cid) db1 ia = db1 := by
    intro ia hia
    by_cases hcond : (ia.categoryId != cid &&
        !((ownAttributeIds db1 cid).contains ia.attributeId)) = true
    · have hne : ia.categoryId ≠ cid := by
        obtain ⟨h1', _⟩ := (Bool.and_eq_true _ _).mp hcond
        exact bne_iff_ne.mp h1'
      have hchk : checkCategoryAttributeExists db1 cid ia.attributeId = true := by
        unfold getCategoryAttributesWithInheritance at hia
        have hsub := mergeRows_sub cid
          (orderBy inheritanceKeyLe (inheritanceJoinRows db1 cid)) [] [] ia hia
        rcases hsub with hout | ⟨x, hx, hxe⟩
        · exact absurd hout (List.not_mem_nil ia)
        · subst hxe
          rw [mem_orderBy, mem_inheritanceJoinRows] at hx
          obtain ⟨c, hcpath, hlev, hcat, hmem1, hlivef, hattrf⟩ := hx
          rw [hbind1'] at hmem1
          have hxdb : x.2 ∈ db.bindings := by
            rcases List.mem_append.mp hmem1 with h | h
            · exact h
            · exact absurd (hextra x.2 h).1 hne
          have hpath' : c ∈ categoryPath db cid := by
            rw [← categoryPath_congr db1 db hcats1' cid]
            exact hcpath
          have hattrf' : checkAttributeExists db x.2.attributeId = true := by
            rw [← checkAttributeExists_congr db1 db hattrs1' x.2.attributeId]
            exact hattrf
          have hx0 : x ∈ inheritanceJoinRows db cid :=
            (mem_inheritanceJoinRows db cid x).mpr
              ⟨c, hpath', hlev, hcat, hxdb, hlivef, hattrf'⟩
          obtain ⟨b0, hb0, hb0x⟩ := mergeRows_attr_mem cid x.2.attributeId
            (orderBy inheritanceKeyLe (inheritanceJoinRows db cid)) [] [] rfl
            ⟨x, (mem_orderBy inheritanceKeyLe (inheritanceJoinRows db cid) x).mpr hx0, rfl⟩
          by_cases hown : ((ownAttributeIds db cid).contains x.2.attributeId) = true
          · have hchk0 := (contains_ownAttributeIds_iff db cid x.2.attributeId).mp hown
            refine checkCategoryAttributeExists_mono db db1 ?_ cid x.2.attributeId hchk0
            intro b hb
            rw [hbind1']
            exact List.mem_append_left _ hb
          · have hown' : ((ownAttributeIds db cid).contains x.2.attributeId) = false := by
              cases hq : (ownAttributeIds db cid).contains x.2.attributeId
              · rfl
              · exact absurd hq hown
            have hb0ne : b0.categoryId ≠ cid := by
              intro he
              apply hown
              have hsub0 := mergeRows_sub cid
                (orderBy inheritanceKeyLe (inheritanceJoinRows db cid)) [] [] b0 hb0
              rcases hsub0 with h | ⟨y, hy, hye⟩
              · exact absurd h (List.not_mem_nil b0)
              · subst hye
                rw [mem_orderBy, mem_inheritanceJoinRows] at hy
                obtain ⟨c0, _, _, _, hymem, hylive, _⟩ := hy
                rw [contains_ownAttributeIds_iff, checkCategoryAttributeExists_iff_exists]
                exact ⟨y.2, hymem, he, hb0x, hylive⟩
            have hown2 : ((ownAttributeIds db cid).contains b0.attributeId) = false := by
              rw [hb0x]
              exact hown'
            have hF := rebuild_foldl_inserted cid (ownAttributeIds db cid)
              (getCategoryAttributesWithInheritance db cid) db b0 hb0 hb0ne hown2
            rw [hb0x] at hF
            exact hF
      unfold rebuildStep
      rw [if_pos hcond, if_pos hchk]
    · unfold rebuildStep
      rw [if_neg hcond]
  have hmain : rebuildInheritanceForCategory db1 cid = db1 :=
    foldl_eq_self (rebuildStep cid (ownAttributeIds db1 cid)) db1
      (getCategoryAttributesWithInheritance db1 cid) hkey
  exact ⟨hmain, by rw [hmain]⟩

end Erp
